import Mathlib

/-!
Verification of the slurm.conf assembly and serialization core of the
slurmctld operator charm (src/charm.py, src/slurm_conf_editor.py,
src/interface_slurmd.py, src/constants.py).

The Python code is shallowly embedded: dictionaries become insertion-ordered
association lists with Python update semantics, fallible code returns
`Except PyErr`, and string operations are reimplemented structurally over
character lists so that all definitions evaluate inside the kernel.

Python's `set` iteration order is unspecified (string hashing is randomized
per process); wherever the source materializes a set into a list
(`list(set(xs))`), the model fixes one canonical order (`List.dedup`).
Theorems about such lists are stated order-insensitively (set membership and
`Nodup`), except where the absence of sorting is itself the point.
-/

namespace SlurmConf

/-- Python exception kinds raised by the embedded code paths. -/
inductive PyErr where
  | indexError
  | keyError
  | attributeError
  | typeError
  deriving DecidableEq, Repr

/-- Values stored in a per-partition parameter dictionary: JSON strings, or
the list of node names the assembler writes under the `Nodes` key. -/
inductive PVal where
  | s (v : String)
  | l (vs : List String)
  deriving DecidableEq, Repr

/-- A `DownNodes` grouping, mirroring the `DownNodes` dataclass: fields in
declaration order are `State`, `Reason`, `DownNodes`. -/
structure DownNodesRec where
  State : String
  Reason : String
  DownNodes : List String
  deriving DecidableEq, Repr

/-- Top-level values of an assembled slurm.conf dictionary: global parameters
are strings; the keys `partitions`, `nodes` and `down_nodes` hold the
discovered inventory. -/
inductive PyVal where
  | str (v : String)
  | parts (ps : List (String × List (String × PVal)))
  | nods (ns : List (String × List (String × String)))
  | downs (ds : List DownNodesRec)
  deriving DecidableEq, Repr

/-! ## Python dictionary semantics

A Python `dict` is modelled as an association list: key order is first-insertion
order and assigning to an existing key updates the value in place. -/

/-- Lookup of the first (and in a well-formed dict, only) binding of a key. -/
def pyLookup (d : List (String × α)) (k : String) : Option α :=
  (d.find? (fun p => p.1 = k)).map (fun p => p.2)

/-- `d[k] = v` on a Python dict: replace the binding in place if the key
exists, else append. (Association lists with a duplicated key correspond to no
Python dict; there only the first binding is replaced.) -/
def pyInsert : List (String × α) → String → α → List (String × α)
  | [], k, v => [(k, v)]
  | p :: ps, k, v => if p.1 = k then (k, v) :: ps else p :: pyInsert ps k v

/-- `d.update(e)` / `{**d, **e}`: insert the bindings of `e` left to right. -/
def pyExtend (d e : List (String × α)) : List (String × α) :=
  e.foldl (fun acc p => pyInsert acc p.1 p.2) d

/-- `dict(pairs)`: build a dict from a pair sequence, later bindings winning. -/
def pyDictOfPairs (ps : List (String × α)) : List (String × α) :=
  pyExtend [] ps

/-- `d.pop(k)`: the value bound to `k` together with the dict without `k`;
`none` models the `KeyError` on a missing key. -/
def pyPop (d : List (String × α)) (k : String) : Option (α × List (String × α)) :=
  match pyLookup d k with
  | some v => some (v, d.filter (fun p => p.1 ≠ k))
  | none => none

/-- The key sequence of a dict. -/
def keysOf (d : List (String × α)) : List String := d.map (fun p => p.1)

/-! ## Python string operations

All operations work on the character list underlying the string, so every
definition reduces inside the kernel. -/

/-- String from a character list. -/
def ofChars (cs : List Char) : String := String.mk cs

/-- `s.split(c)` for a one-character separator: Python semantics, in
particular `"".split(c) == [""]`. -/
def splitOnChar (c : Char) : List Char → List (List Char)
  | [] => [[]]
  | x :: xs =>
    match splitOnChar c xs with
    | [] => [[]]
    | y :: ys => if x = c then [] :: y :: ys else (x :: y) :: ys

/-- `s.split(c)` on strings. -/
def pySplit (s : String) (c : Char) : List String :=
  (splitOnChar c s.data).map ofChars

/-- `sep.join(items)`. -/
def joinWith (sep : String) : List String → String
  | [] => ""
  | [x] => x
  | x :: y :: xs => x ++ sep ++ joinWith sep (y :: xs)

/-- The characters Python's `str.strip()` / `str.lstrip()` remove. -/
def pyWs : List Char := [' ', '\t', '\n', '\r', '\x0b', '\x0c']

/-- `s.strip() == ""`: every character is whitespace. -/
def wsOnly (s : String) : Bool := s.data.all (fun c => pyWs.contains c)

/-- `s.lstrip()`. -/
def pyLstrip (s : String) : String := ofChars (s.data.dropWhile (fun c => pyWs.contains c))

/-- `s.startswith("#")`. -/
def startsWithHash (s : String) : Bool :=
  match s.data with
  | c :: _ => c = '#'
  | [] => false

/-- `list(set(xs))`: deduplication; Python's iteration order is unspecified,
the model canonically keeps the last occurrence of each element
(`List.dedup`). Only order-insensitive facts are derived from the order. -/
def pySetList (xs : List String) : List String := xs.dedup

/-! ## textwrap.dedent and the dedent helpers of slurm_conf_editor.py -/

/-- Space or tab, the indentation characters `textwrap.dedent` considers. -/
def isSpaceTab (c : Char) : Bool := c = ' ' || c = '\t'

/-- First normalization pass of `textwrap.dedent`: lines consisting solely of
whitespace are replaced by empty lines. -/
def blankWsLine (l : String) : String :=
  if l ≠ "" && l.data.all isSpaceTab then "" else l

/-- The leading space/tab run of a line. -/
def lineIndent (l : String) : List Char := l.data.takeWhile isSpaceTab

/-- One step of `textwrap.dedent`'s margin computation over the indents of the
content lines: keep the deeper-consistent winner, else the largest common
whitespace of the two candidates. -/
def marginStep (m : Option (List Char)) (ind : List Char) : Option (List Char) :=
  match m with
  | none => some ind
  | some m0 =>
    if m0.isPrefixOf ind then some m0
    else if ind.isPrefixOf m0 then some ind
    else some (commonOf m0 ind)
where
  /-- Largest common prefix of two character lists. -/
  commonOf : List Char → List Char → List Char
    | a :: as, b :: bs => if a = b then a :: commonOf as bs else []
    | _, _ => []

/-- `textwrap.dedent`: blank the whitespace-only lines, compute the common
margin of the content lines, and strip it from every line that carries it. -/
def pyDedent (text : String) : String :=
  let lines := (pySplit text '\n').map blankWsLine
  let indents := lines.filterMap (fun l => if l = "" then none else some (lineIndent l))
  let margin := (indents.foldl marginStep none).getD []
  if margin.isEmpty then joinWith "\n" lines
  else
    joinWith "\n" (lines.map (fun l =>
      if margin.isPrefixOf l.data then ofChars (l.data.drop margin.length) else l))

/-- `dedent` of slurm_conf_editor.py: `textwrap.dedent(text).lstrip()`. -/
def dedent (text : String) : String := pyLstrip (pyDedent text)

/-- `SLURM_CONF_SECTION_SEPARATOR`: a blank-line separator. -/
def SLURM_CONF_SECTION_SEPARATOR : String := "\n\n"

/-- `dedent_all(*texts)`: dedent each blob and join the results on newlines. -/
def dedent_all (texts : List String) : String :=
  joinWith "\n" (texts.map dedent)

/-! ## Field catalogs (src/slurm_conf_editor.py dataclasses) -/

/-- Global parameter catalog: the field names of the `Parameters` dataclass in
src/slurm_conf_editor.py, in declaration order. -/
def parametersCatalog : List String := [
  "AccountingStorageBackupHost",
  "AccountingStorageEnforce",
  "AccountingStorageExternalHost",
  "AccountingStorageHost",
  "AccountingStorageParameters",
  "AccountingStoragePass",
  "AccountingStoragePort",
  "AccountingStorageTRES",
  "AccountingStorageType",
  "AccountingStorageUser",
  "AccountingStoreFlags",
  "AcctGatherNodeFreq",
  "AcctGatherEnergyType",
  "AcctGatherInterconnectType",
  "AcctGatherFilesystemType",
  "AcctGatherProfileType",
  "AllowSpecResourcesUsage",
  "AuthAltTypes",
  "AuthAltParameters",
  "AuthInfo",
  "AuthType",
  "BatchStartTimeout",
  "BcastExclude",
  "BcastParameters",
  "BurstBufferType",
  "CliFilterPlugins",
  "ClusterName",
  "CommunicationParameters",
  "CheckGhalQuiesce",
  "DisableIPv4",
  "EnableIPv6",
  "NoCtldInAddrAny",
  "NoInAddrAny",
  "CompleteWait",
  "CoreSpecPlugin",
  "CpuFreqDef",
  "CpuFreqGovernors",
  "CredType",
  "DebugFlags",
  "BurstBuffer",
  "DefCpuPerGPU",
  "DefMemPerCPU",
  "DefMemPerGPU",
  "DefMemPerNode",
  "DependencyParameters",
  "DisableRootJobs",
  "EioTimeout",
  "EnforcePartLimits",
  "Epilog",
  "EpilogMsgTime",
  "EpilogSlurmctld",
  "FairShareDampeningFactor",
  "FederationParameters",
  "FirstJobId",
  "GetEnvTimeout",
  "GresTypes",
  "GroupUpdateForce",
  "GroupUpdateTime",
  "GpuFreqDef",
  "HealthCheckInterval",
  "HealthCheckNodeState",
  "HealthCheckProgram",
  "InactiveLimit",
  "InteractiveStepOptions",
  "JobAcctGatherType",
  "JobAcctGatherFrequency",
  "JobAcctGatherParams",
  "NoShared",
  "UsePss",
  "OverMemoryKill",
  "DisableGPUAcct",
  "JobCompHost",
  "JobCompLoc",
  "JobCompParams",
  "JobCompPass",
  "JobCompPort",
  "JobCompType",
  "JobCompUser",
  "JobContainerType",
  "JobFileAppend",
  "JobRequeue",
  "JobSubmitPlugins",
  "KillOnBadExit",
  "KillWait",
  "MaxBatchRequeue",
  "NodeFeaturesPlugins",
  "LaunchParameters",
  "Licenses",
  "LogTimeFormat",
  "MailDomain",
  "MailProg",
  "MaxArraySize",
  "MaxDBDMsgs",
  "MaxJobCount",
  "MaxJobId",
  "MaxMemPerCPU",
  "MaxMemPerNode",
  "MaxNodeCount",
  "MaxStepCount",
  "MaxTasksPerNode",
  "MCSParameters",
  "MCSPlugin",
  "MessageTimeout",
  "MinJobAge",
  "MpiDefault",
  "MpiParams",
  "OverTimeLimit",
  "PluginDir",
  "PlugStackConfig",
  "PowerParameters",
  "PowerPlugin",
  "PreemptMode",
  "PreemptParameters",
  "PreemptType",
  "PreemptExemptTime",
  "PrEpParameters",
  "PrEpPlugins",
  "PriorityCalcPeriod",
  "PriorityDecayHalfLife",
  "PriorityFavorSmall",
  "PriorityFlags",
  "PriorityMaxAge",
  "PriorityParameters",
  "PrioritySiteFactorParameters",
  "PrioritySiteFactorPlugin",
  "PriorityType",
  "PriorityUsageResetPeriod",
  "PriorityWeightAge",
  "PriorityWeightAssoc",
  "PriorityWeightFairshare",
  "PriorityWeightJobSize",
  "PriorityWeightPartition",
  "PriorityWeightQOS",
  "PriorityWeightTRES",
  "PrivateData",
  "ProctrackType",
  "Prolog",
  "PrologEpilogTimeout",
  "PrologFlags",
  "PrologSlurmctld",
  "PropagatePrioProcess",
  "PropagateResourceLimits",
  "PropagateResourceLimitsExcept",
  "RebootProgram",
  "ReconfigFlags",
  "KeepPartInfo",
  "KeepPartState",
  "KeepPowerSaveSettings",
  "RequeueExit",
  "RequeueExitHold",
  "ResumeFailProgram",
  "ResumeProgram",
  "ResumeRate",
  "ResumeTimeout",
  "ResvEpilog",
  "ResvOverRun",
  "ResvProlog",
  "ReturnToService",
  "SchedulerParameters",
  "SchedulerTimeSlice",
  "SchedulerType",
  "ScronParameters",
  "SelectType",
  "SelectTypeParameters",
  "SlurmctldAddr",
  "SlurmctldDebug",
  "SlurmctldHost",
  "SlurmctldLogFile",
  "SlurmctldParameters",
  "SlurmctldPidFile",
  "SlurmctldPort",
  "SlurmctldPrimaryOffProg",
  "SlurmctldPrimaryOnProg",
  "SlurmctldSyslogDebug",
  "SlurmctldTimeout",
  "SlurmdDebug",
  "SlurmdLogFile",
  "SlurmdParameters",
  "SlurmdPidFile",
  "SlurmdPort",
  "SlurmdSpoolDir",
  "SlurmdSyslogDebug",
  "SlurmdTimeout",
  "SlurmdUser",
  "SlurmSchedLogFile",
  "SlurmSchedLogLevel",
  "SlurmUser",
  "SrunEpilog",
  "SrunPortRange",
  "SrunProlog",
  "StateSaveLocation",
  "SuspendExcNodes",
  "SuspendExcParts",
  "SuspendExcStates",
  "SuspendProgram",
  "SuspendRate",
  "SuspendTime",
  "SuspendTimeout",
  "SwitchParameters",
  "SwitchType",
  "TaskEpilog",
  "TaskPlugin",
  "TaskPluginParam",
  "Cores",
  "Sockets",
  "Threads",
  "SlurmdOffSpec",
  "Verbose",
  "Autobind",
  "TaskProlog",
  "TCPTimeout",
  "TmpFS",
  "TopologyParam",
  "Dragonfly",
  "RoutePart",
  "SwitchAsNodeRank",
  "RouteTree",
  "TopoOptional",
  "TopologyPlugin",
  "TrackWCKey",
  "TreeWidth",
  "UnkillableStepProgram",
  "UnkillableStepTimeout",
  "UsePAM",
  "VSizeFactor",
  "WaitTime",
  "X11Parameters"
]

/-- Partition field catalog: the field names of the `Partition` dataclass, in
declaration order (`PartitionName` first, `Nodes` in its declared slot). -/
def partitionCatalog : List String := [
  "PartitionName",
  "AllocNodes",
  "AllowAccounts",
  "AllowGroups",
  "AllowQos",
  "Alternate",
  "CpuBind",
  "Default",
  "DefaultTime",
  "DefCpuPerGPU",
  "DefMemPerCPU",
  "DefMemPerGPU",
  "DefMemPerNode",
  "DenyAccounts",
  "DenyQos",
  "DisableRootJobs",
  "ExclusiveUser",
  "GraceTime",
  "Hidden",
  "LLN",
  "MaxCPUsPerNode",
  "MaxCPUsPerSocket",
  "MaxMemPerCPU",
  "MaxMemPerNode",
  "MaxNodes",
  "MaxTime",
  "MinNodes",
  "Nodes",
  "OverSubscribe",
  "OverTimeLimit",
  "PowerDownOnIdle",
  "PreemptMode",
  "PriorityJobFactor",
  "PriorityTier",
  "QOS",
  "ReqResv",
  "ResumeTimeout",
  "RootOnly",
  "SelectTypeParameters",
  "State",
  "SuspendTime",
  "SuspendTimeout",
  "TRESBillingWeights"
]

/-- Node field catalog: the field names of the `Node` dataclass, in declaration
order (`NodeName` first). -/
def nodeCatalog : List String := [
  "NodeName",
  "NodeHostname",
  "NodeAddr",
  "BcastAddr",
  "Boards",
  "CoreSpecCount",
  "CoresPerSocket",
  "CpuBind",
  "CPUs",
  "CpuSpecList",
  "Features",
  "Gres",
  "MemSpecLimit",
  "Port",
  "Procs",
  "RealMemory",
  "Reason",
  "Sockets",
  "SocketsPerBoard",
  "State",
  "ThreadsPerCore",
  "TmpDisk",
  "Weight"
]

/-! ## Record construction and per-entity serialization

A dataclass instance is embedded as its `vars()` view: the full field catalog
in declaration order, each field bound to an optional value. Constructing a
record from a `**kwargs` dict raises `TypeError` when the dict holds a key
outside the catalog (or rebinds the positional name argument). -/

/-- Python `str(v)` for a partition field value; a list renders as its repr. -/
def pyStrOfPVal : PVal → String
  | .s v => v
  | .l vs => "[" ++ joinWith ", " (vs.map (fun x => "'" ++ x ++ "'")) ++ "]"

/-- Python `str(v)` for an optional partition field value: `str(None) = "None"`. -/
def pyStrOfOpt : Option PVal → String
  | none => "None"
  | some v => pyStrOfPVal v

/-- Iterating a partition's `Nodes` value, as `",".join(nodes)` does: a list
yields its elements; a string yields its characters. -/
def pvalElems : PVal → List String
  | .l vs => vs
  | .s v => v.data.map (fun c => ofChars [c])

/-- The string bound to a `Parameters` field, if any. -/
def strValOf : Option PyVal → Option String
  | some (.str v) => some v
  | _ => none

/-- Whether a top-level value is a plain string. -/
def isStrVal : PyVal → Bool
  | .str _ => true
  | _ => false

/-- `Parameters(**conf)`: every key must belong to the global catalog, else
`TypeError`. The model additionally requires the values to be strings: every
producer in the repository stores strings under global keys, and no claim
exercises a non-string global value. -/
def parametersOfDict (conf : List (String × PyVal)) :
    Except PyErr (List (String × Option String)) :=
  if conf.all (fun p => parametersCatalog.contains p.1 && isStrVal p.2) then
    .ok (parametersCatalog.map (fun k => (k, strValOf (pyLookup conf k))))
  else .error .typeError

/-- `Parameters.as_slurm_conf_entries`: one `Key=Value` line per set field, in
declaration order, joined by newlines. -/
def as_slurm_conf_entries (fields : List (String × Option String)) : String :=
  joinWith "\n" (fields.filterMap (fun p => p.2.map (fun v => p.1 ++ "=" ++ v)))

/-- `Parameters.as_snap_conf_entries`: one `(key, value)` pair per set field. -/
def params_as_snap_conf_entries (fields : List (String × Option String)) :
    List (String × String) :=
  fields.filterMap (fun p => p.2.map (fun v => (p.1, v)))

/-- `Partition(name, **params)`: `TypeError` on a key outside the partition
catalog or a second `PartitionName` binding; `Nodes` defaults to the empty
list, every other absent field to `None`. -/
def partitionOf (name : String) (params : List (String × PVal)) :
    Except PyErr (List (String × Option PVal)) :=
  if params.all (fun p => partitionCatalog.contains p.1 && p.1 ≠ "PartitionName") then
    .ok (partitionCatalog.map (fun k => (k,
      if k = "PartitionName" then some (.s name)
      else if k = "Nodes" then some ((pyLookup params "Nodes").getD (.l []))
      else pyLookup params k)))
  else .error .typeError

/-- `Partition.as_slurm_conf_entry`: pop `PartitionName` and `Nodes`, then
emit `PartitionName=<name> Nodes=<joined nodes or ""> <other set fields>`.
The joined node list is exactly the stored list — the source applies no
sorting. In a constructed record both popped fields are always bound. -/
def partition_as_slurm_conf_entry (fields : List (String × Option PVal)) : String :=
  let pname := pyStrOfOpt ((pyLookup fields "PartitionName").getD none)
  let nodes := match (pyLookup fields "Nodes").getD none with
    | some v => pvalElems v
    | none => []
  let rest := fields.filter (fun p => p.1 ≠ "PartitionName" && p.1 ≠ "Nodes")
  "PartitionName=" ++ pname ++ " " ++
    "Nodes=" ++ (if nodes.length > 0 then joinWith "," nodes else "\"\"") ++ " " ++
    joinWith " " (rest.filterMap (fun p => p.2.map (fun v => p.1 ++ "=" ++ pyStrOfPVal v)))

/-- `Partition.as_snap_conf_entries`. The source filters with
`if v is not None or k is not "PartitionName"`: the disjunction is satisfied
by every field (an unset field still has `k` distinct from `"PartitionName"`,
and the `PartitionName` field is never `None`), so every field is emitted,
unset ones as the string `"None"`. -/
def partition_as_snap_conf_entries (fields : List (String × Option PVal)) :
    List (String × String) :=
  let pname := pyStrOfOpt ((pyLookup fields "PartitionName").getD none)
  fields.filterMap (fun p =>
    if p.2.isSome || p.1 ≠ "PartitionName" then
      some (pname ++ "." ++ p.1, pyStrOfOpt p.2)
    else none)

/-- `Node(name, **params)`: `TypeError` on a key outside the node catalog or a
second `NodeName` binding. -/
def nodeOf (name : String) (params : List (String × String)) :
    Except PyErr (List (String × Option String)) :=
  if params.all (fun p => nodeCatalog.contains p.1 && p.1 ≠ "NodeName") then
    .ok (nodeCatalog.map (fun k => (k,
      if k = "NodeName" then some name else pyLookup params k)))
  else .error .typeError

/-- `Node.as_slurm_conf_entry`: all set fields, space-joined `Key=Value`. -/
def node_as_slurm_conf_entry (fields : List (String × Option String)) : String :=
  joinWith " " (fields.filterMap (fun p => p.2.map (fun v => p.1 ++ "=" ++ v)))

/-- `Node.as_snap_conf_entries`: one `(key, value)` pair per set field. -/
def node_as_snap_conf_entries (fields : List (String × Option String)) :
    List (String × String) :=
  fields.filterMap (fun p => p.2.map (fun v => (p.1, v)))

/-- `DownNodes.as_slurm_conf_entry`: the grouping line, reason quoted. -/
def down_as_slurm_conf_entry (r : DownNodesRec) : String :=
  "DownNodes=" ++ joinWith "," r.DownNodes ++ " State=" ++ r.State ++
    " Reason=\"" ++ r.Reason ++ "\""

/-- `DownNodes.as_snap_conf_entries`: all three fields are always set; the
node list is stringified as its Python repr. -/
def down_as_snap_conf_entries (r : DownNodesRec) : List (String × String) :=
  [("State", r.State), ("Reason", r.Reason), ("DownNodes", pyStrOfPVal (.l r.DownNodes))]

/-! ## Document-level renderers -/

/-- Left-to-right evaluation of a list comprehension of fallible entries:
the first fault wins, otherwise the list of results. -/
def mapEntries (f : α → Except PyErr β) : List α → Except PyErr (List β)
  | [] => .ok []
  | x :: xs =>
    match f x with
    | .error e => .error e
    | .ok r =>
      match mapEntries f xs with
      | .error e => .error e
      | .ok rs => .ok (r :: rs)

/-- `slurm_conf.pop("partitions")`, expecting the partitions mapping. -/
def popParts (d : List (String × PyVal)) :
    Except PyErr (List (String × List (String × PVal)) × List (String × PyVal)) :=
  match pyPop d "partitions" with
  | some (.parts ps, rest) => .ok (ps, rest)
  | some _ => .error .typeError
  | none => .error .keyError

/-- `slurm_conf.pop("nodes")`, expecting the nodes mapping. -/
def popNodes (d : List (String × PyVal)) :
    Except PyErr (List (String × List (String × String)) × List (String × PyVal)) :=
  match pyPop d "nodes" with
  | some (.nods ns, rest) => .ok (ns, rest)
  | some _ => .error .typeError
  | none => .error .keyError

/-- `slurm_conf.pop("down_nodes")`, expecting the groupings list. -/
def popDowns (d : List (String × PyVal)) :
    Except PyErr (List DownNodesRec × List (String × PyVal)) :=
  match pyPop d "down_nodes" with
  | some (.downs ds, rest) => .ok (ds, rest)
  | some _ => .error .typeError
  | none => .error .keyError

/-- Body of `slurm_conf_as_string`, operating on the working copy: pop the
three inventory keys (building each section's entry list as the source does,
with the synthetic default partition line when there are no partitions),
construct `Parameters` from the remainder, and join the four commented
sections with the blank-line separator via `dedent_all`. -/
def renderBody (conf0 : List (String × PyVal)) : Except PyErr String := do
  let (partitions, conf1) ← popParts conf0
  let partition_entries ←
    if partitions.isEmpty then pure ["PartitionName=DEFAULT Default=YES"]
    else mapEntries (fun p => (partitionOf p.1 p.2).map partition_as_slurm_conf_entry) partitions
  let (nodes, conf2) ← popNodes conf1
  let node_entries ← mapEntries (fun p => (nodeOf p.1 p.2).map node_as_slurm_conf_entry) nodes
  let (down_nodes, conf3) ← popDowns conf2
  let down_node_entries := down_nodes.map down_as_slurm_conf_entry
  let parameters ← parametersOfDict conf3
  pure (dedent_all [
    "# Parameters", as_slurm_conf_entries parameters, SLURM_CONF_SECTION_SEPARATOR,
    "# Partitions", joinWith "\n" partition_entries, SLURM_CONF_SECTION_SEPARATOR,
    "# Nodes", joinWith "\n" node_entries, SLURM_CONF_SECTION_SEPARATOR,
    "# DownNodes", joinWith "\n" down_node_entries])

/-- `copy.deepcopy` on a model value is the value itself; the significance of
the call in the source is that every subsequent `pop` mutates the copy, never
the caller's dict. -/
def pyDeepcopy (d : List (String × PyVal)) : List (String × PyVal) := d

/-- `slurm_conf_as_string` with the caller's dict tracked explicitly: the
function rebinds its local name to a deep copy before popping, so the second
component — the caller's dict after the call — is the untouched input. -/
def slurm_conf_as_string_run (d : List (String × PyVal)) :
    Except PyErr String × List (String × PyVal) :=
  (renderBody (pyDeepcopy d), d)

/-- `slurm_conf_as_string`: the flat-file rendering. -/
def slurm_conf_as_string (d : List (String × PyVal)) : Except PyErr String :=
  (slurm_conf_as_string_run d).1

/-- Body of `slurm_conf_as_snap_conf` on the working copy. The three pops run
first; `dict(itertools.chain(...))` then materializes the `Parameters` pairs
and the lazy partition/node/grouping generators in that order. -/
def snapBody (conf0 : List (String × PyVal)) : Except PyErr (List (String × String)) := do
  let (partitions, conf1) ← popParts conf0
  let (nodes, conf2) ← popNodes conf1
  let (down_nodes, conf3) ← popDowns conf2
  let parameters ← parametersOfDict conf3
  let partition_entries ←
    if partitions.isEmpty then pure [("partition-name", "DEFAULT"), ("default", "YES")]
    else (mapEntries (fun p => (partitionOf p.1 p.2).map partition_as_snap_conf_entries) partitions).map List.flatten
  let node_entries ←
    (mapEntries (fun p => (nodeOf p.1 p.2).map node_as_snap_conf_entries) nodes).map List.flatten
  let down_node_entries := (down_nodes.map down_as_snap_conf_entries).flatten
  pure (pyDictOfPairs (params_as_snap_conf_entries parameters ++ partition_entries ++
    node_entries ++ down_node_entries))

/-- `slurm_conf_as_snap_conf` with the caller's dict tracked explicitly, as in
`slurm_conf_as_string_run`. -/
def slurm_conf_as_snap_conf_run (d : List (String × PyVal)) :
    Except PyErr (List (String × String)) × List (String × PyVal) :=
  (snapBody (pyDeepcopy d), d)

/-- `slurm_conf_as_snap_conf`: the mapping rendering. -/
def slurm_conf_as_snap_conf (d : List (String × PyVal)) :
    Except PyErr (List (String × String)) :=
  (slurm_conf_as_snap_conf_run d).1

/-! ## Charm-maintained defaults (src/constants.py)

`Path` values are embedded as their string form, which is how they are
ultimately rendered. -/

/-- `CHARM_MAINTAINED_SLURM_CONF_PARAMETERS`, in source order. -/
def CHARM_MAINTAINED_SLURM_CONF_PARAMETERS : List (String × String) := [
  ("AuthAltParameters", "jwt_key=/var/spool/slurmctld/jwt_hs256.key"),
  ("AuthAltTypes", "auth/jwt"),
  ("AuthInfo", "/var/snap/slurm/common/run/munge/munged.socket.2"),
  ("AuthType", "auth/munge"),
  ("GresTypes", "gpu"),
  ("HealthCheckInterval", "600"),
  ("HealthCheckNodeState", "ANY,CYCLE"),
  ("HealthCheckProgram", "/usr/sbin/omni-nhc-wrapper"),
  ("MailProg", "/usr/bin/mail.mailutils"),
  ("PluginDir", "/usr/lib/x86_64-linux-gnu/slurm-wlm"),
  ("PlugStackConfig", "/etc/slurm/plugstack.conf.d/plugstack.conf"),
  ("SelectType", "select/cons_tres"),
  ("SlurmctldPort", "6817"),
  ("SlurmdPort", "6818"),
  ("StateSaveLocation", "/var/spool/slurmctld"),
  ("SlurmdSpoolDir", "/var/spool/slurmd"),
  ("SlurmctldParameters", "enable_configless"),
  ("SlurmctldLogFile", "/var/snap/slurm/common/var/log/slurm/slurmctld.log"),
  ("SlurmdLogFile", "/var/snap/slurm/common/var/log/slurm/slurmctld.log"),
  ("SlurmdPidFile", "/run/slurmd.pid"),
  ("SlurmctldPidFile", "/run/slurmctld.pid"),
  ("SlurmUser", "slurm"),
  ("SlurmdUser", "root"),
  ("RebootProgram", "\"/usr/sbin/reboot --reboot\"")]

/-! ## User-supplied parameter parsing (charm.py, `_get_user_supplied_parameters`) -/

/-- Whether a line survives the comprehension filter:
`not line.startswith("#") and line.strip() != ""`. -/
def surviveLine (l : String) : Bool := !startsWithHash l && !wsOnly l

/-- The dict comprehension
`{line.split("=")[0]: line.split("=")[1] for line in lines if ...}`:
each surviving line is split on every `=`; index `[1]` — the text between the
first and second `=` — raises `IndexError` when the line holds no `=`. -/
def userParamsFromLines : List String → List (String × String) →
    Except PyErr (List (String × String))
  | [], acc => .ok acc
  | l :: ls, acc =>
    if surviveLine l then
      match pySplit l '=' with
      | _ :: [] => .error .indexError
      | [] => .error .indexError
      | k :: v :: _ => userParamsFromLines ls (pyInsert acc k v)
    else userParamsFromLines ls acc

/-- `_get_user_supplied_parameters`: an unset or empty (falsy) config value
yields the empty dict; otherwise the text is split on newlines and parsed. -/
def get_user_supplied_parameters (cfg : Option String) :
    Except PyErr (List (String × String)) :=
  match cfg with
  | none => .ok []
  | some t => if t = "" then .ok [] else userParamsFromLines (pySplit t '\n') []

/-! ## slurmd inventory assembly (interface_slurmd.py,
`get_new_nodes_and_nodes_and_partitions`) -/

/-- A decoded per-unit `node` JSON blob: the truthiness of `new_node` and the
`node_parameters` mapping (`none` models an absent or empty mapping, which
`node.get("node_parameters")` treats alike). -/
structure NodeMsg where
  new_node : Bool
  node_parameters : Option (List (String × String))
  deriving DecidableEq, Repr

/-- One joined slurmd relation: the decoded `partition` JSON items (an empty
list models absent-or-empty data, which makes the relation be skipped) and the
decoded per-unit `node` blobs in unit-iteration order (`none`: the unit has
published no node data). -/
structure RelationMsg where
  partition : List (String × List (String × PVal))
  units : List (Option NodeMsg)
  deriving DecidableEq, Repr

/-- Result of the inventory assembly, in the key order of the returned dict. -/
structure GNP where
  down_nodes : List DownNodesRec
  nodes : List (String × List (String × String))
  partitions : List (String × List (String × PVal))
  deriving DecidableEq, Repr

/-- The inner `for unit in relation.units` loop, run once per partition item:
every unit with node data and a non-empty `node_parameters` mapping appends
its `NodeName` (a `KeyError` if missing) to the partition's node list, stores
its remaining parameters in the nodes dict, and, when flagged new, appends the
name to the running new-node list. -/
def processUnits : List (Option NodeMsg) → List String →
    List (String × List (String × String)) → List String →
    Except PyErr (List String × List (String × List (String × String)) × List String)
  | [], pn, nodes, nn => .ok (pn, nodes, nn)
  | u :: us, pn, nodes, nn =>
    match u with
    | none => processUnits us pn nodes nn
    | some msg =>
      match msg.node_parameters with
      | none => processUnits us pn nodes nn
      | some nc =>
        match pyLookup nc "NodeName" with
        | none => .error .keyError
        | some nodeName =>
          processUnits us (pn ++ [nodeName])
            (pyInsert nodes nodeName (nc.filter (fun p => p.1 ≠ "NodeName")))
            (if msg.new_node then nn ++ [nodeName] else nn)

/-- The check against the configured `default-partition` name: a matching
partition gets `Default=YES` stamped into its parameters. -/
def stampDefault (dp : Option String) (pname : String)
    (pp : List (String × PVal)) : List (String × PVal) :=
  if dp = some pname then pyInsert pp "Default" (.s "YES") else pp

/-- The `for partition_name, partition_parameters in partition_as_dict.items()`
loop: per item, collect the relation's unit nodes, store the deduplicated node
list under `Nodes`, stamp `Default=YES` when the item matches the configured
default partition, and store the item in the partitions dict. -/
def processItems (dp : Option String) : List (String × List (String × PVal)) →
    List (Option NodeMsg) → List (String × List (String × PVal)) →
    List (String × List (String × String)) → List String →
    Except PyErr (List (String × List (String × PVal)) ×
      List (String × List (String × String)) × List String)
  | [], _, parts, nodes, nn => .ok (parts, nodes, nn)
  | (pname, pparams) :: items, units, parts, nodes, nn =>
    match processUnits units [] nodes nn with
    | .error e => .error e
    | .ok (pnodes, nodes2, nn2) =>
      processItems dp items units
        (pyInsert parts pname
          (stampDefault dp pname (pyInsert pparams "Nodes" (.l (pySetList pnodes)))))
        nodes2 nn2

/-- The outer `for relation in relations` loop: a relation without partition
data is skipped wholesale. -/
def processRels (dp : Option String) : List RelationMsg →
    List (String × List (String × PVal)) →
    List (String × List (String × String)) → List String →
    Except PyErr (List (String × List (String × PVal)) ×
      List (String × List (String × String)) × List String)
  | [], parts, nodes, nn => .ok (parts, nodes, nn)
  | rel :: rels, parts, nodes, nn =>
    if rel.partition.isEmpty then processRels dp rels parts nodes nn
    else
      match processItems dp rel.partition rel.units parts nodes nn with
      | .error e => .error e
      | .ok (p2, n2, nn2) => processRels dp rels p2 n2 nn2

/-- `get_new_nodes_and_nodes_and_partitions`: process every relation, then
emit one `DownNodes` grouping over the deduplicated new-node names when any
exist. -/
def get_new_nodes_and_nodes_and_partitions (dp : Option String)
    (rels : List RelationMsg) : Except PyErr GNP :=
  match processRels dp rels [] [] [] with
  | .error e => .error e
  | .ok (parts, nodes, nn) =>
    .ok { down_nodes :=
            if nn.isEmpty then []
            else [{ State := "DOWN", Reason := "New node.", DownNodes := pySetList nn }],
          nodes := nodes,
          partitions := parts }

/-! ## slurm.conf assembly (charm.py, `_assemble_slurm_conf`) -/

/-- `_assemble_slurmctld_parameters`. The source guards the merge with
`if (user_supplied_slurmctld_parameters := user_supplied_parameters.get("SlurmctldParameters", "") != ""):`;
the walrus operator binds the whole comparison, so the bound name is the
Boolean `get(...) != ""`. When a user value is present the branch is taken and
`user_supplied_slurmctld_parameters.split(",")` is `True.split(",")` — an
`AttributeError`. When no user value is present the merge returns the
charm-maintained default rejoined with itself. -/
def assemble_slurmctld_parameters (user : List (String × String)) :
    Except PyErr String :=
  let slurmctld_param_config :=
    pySplit ((pyLookup CHARM_MAINTAINED_SLURM_CONF_PARAMETERS "SlurmctldParameters").getD "") ','
  let userVal := (pyLookup user "SlurmctldParameters").getD ""
  if userVal ≠ "" then .error .attributeError
  else .ok (joinWith "," (slurmctld_param_config ++ []))

/-- The accounting parameters, present only when the stored slurmdbd host is
non-empty. -/
def accountingParams (slurmdbdHost : String) : List (String × String) :=
  if slurmdbdHost ≠ "" then
    [("AccountingStorageHost", slurmdbdHost),
     ("AccountingStorageType", "accounting_storage/slurmdbd"),
     ("AccountingStoragePass", "/var/run/munge/munge.socket.2"),
     ("AccountingStoragePort", "6819")]
  else []

/-- The `slurm_conf = {...}` dict literal up to and including the slurmd
inventory unpacking — everything below the user-supplied overrides. -/
def assemble_base (clusterName ingressAddr hostname : String) (isContainer : Bool)
    (slurmdbdHost : String) (slurmctldParams : String) (g : GNP) :
    List (String × PyVal) :=
  let base : List (String × PyVal) :=
    [("ClusterName", .str clusterName),
     ("SlurmctldAddr", .str ingressAddr),
     ("SlurmctldHost", .str hostname),
     ("SlurmctldParameters", .str slurmctldParams),
     ("ProctrackType", .str (if isContainer then "proctrack/linuxproc" else "proctrack/cgroup"))]
  pyExtend
    (pyExtend
      (pyExtend base ((accountingParams slurmdbdHost).map (fun p => (p.1, PyVal.str p.2))))
      (CHARM_MAINTAINED_SLURM_CONF_PARAMETERS.map (fun p => (p.1, PyVal.str p.2))))
    [("down_nodes", .downs g.down_nodes), ("nodes", .nods g.nodes),
     ("partitions", .parts g.partitions)]

/-- `_assemble_slurm_conf`: gather the user-supplied parameters, the slurmd
inventory and the (attempted) `SlurmctldParameters` merge — in source
evaluation order, each fault propagating — then build the dict literal with
the user-supplied parameters unpacked last. -/
def assemble_slurm_conf (clusterName ingressAddr hostname : String)
    (isContainer : Bool) (slurmdbdHost : String) (dp : Option String)
    (rels : List RelationMsg) (userCfg : Option String) :
    Except PyErr (List (String × PyVal)) := do
  let user ← get_user_supplied_parameters userCfg
  let g ← get_new_nodes_and_nodes_and_partitions dp rels
  let sp ← assemble_slurmctld_parameters user
  pure (pyExtend (assemble_base clusterName ingressAddr hostname isContainer slurmdbdHost sp g)
    (user.map (fun p => (p.1, PyVal.str p.2))))

/-! ## Dictionary lemmas -/

theorem pyLookup_nil (k : String) : pyLookup ([] : List (String × α)) k = none := rfl

theorem pyLookup_cons (p : String × α) (d : List (String × α)) (k : String) :
    pyLookup (p :: d) k = if p.1 = k then some p.2 else pyLookup d k := by
  by_cases h : p.1 = k <;> simp [pyLookup, List.find?_cons, h]

theorem keysOf_cons (p : String × α) (d : List (String × α)) :
    keysOf (p :: d) = p.1 :: keysOf d := rfl

theorem pyLookup_mem {d : List (String × α)} {k : String} {v : α}
    (h : pyLookup d k = some v) : (k, v) ∈ d := by
  induction d with
  | nil => simp [pyLookup] at h
  | cons p ps ih =>
    rw [pyLookup_cons] at h
    by_cases hp : p.1 = k
    · rw [if_pos hp] at h
      have hv : p.2 = v := Option.some.inj h
      exact List.mem_cons.mpr (Or.inl (Prod.ext hp hv).symm)
    · rw [if_neg hp] at h
      exact List.mem_cons_of_mem _ (ih h)

theorem pyInsert_lookup_self (d : List (String × α)) (k : String) (v : α) :
    pyLookup (pyInsert d k v) k = some v := by
  induction d with
  | nil => simp [pyInsert, pyLookup_cons]
  | cons p ps ih =>
    by_cases h : p.1 = k
    · simp [pyInsert, h, pyLookup_cons]
    · simp [pyInsert, h, pyLookup_cons, ih]

theorem pyInsert_lookup_ne (d : List (String × α)) (k k' : String) (v : α)
    (h : k' ≠ k) : pyLookup (pyInsert d k v) k' = pyLookup d k' := by
  induction d with
  | nil => simp [pyInsert, pyLookup_cons, pyLookup_nil, Ne.symm h]
  | cons p ps ih =>
    by_cases hp : p.1 = k
    · rw [pyInsert, if_pos hp, pyLookup_cons, pyLookup_cons,
        if_neg (fun he : k = k' => h he.symm), if_neg (hp ▸ fun he : p.1 = k' => h (hp ▸ he).symm)]
    · rw [pyInsert, if_neg hp, pyLookup_cons, pyLookup_cons, ih]

theorem mem_keysOf_pyInsert {d : List (String × α)} {x k : String} {v : α} :
    x ∈ keysOf (pyInsert d k v) ↔ x = k ∨ x ∈ keysOf d := by
  induction d with
  | nil => simp [pyInsert, keysOf]
  | cons p ps ih =>
    by_cases hp : p.1 = k
    · simp only [pyInsert, if_pos hp, keysOf_cons]
      constructor
      · intro h
        rcases List.mem_cons.mp h with h | h
        · exact Or.inl h
        · exact Or.inr (List.mem_cons.mpr (Or.inr h))
      · rintro (h | h)
        · exact List.mem_cons.mpr (Or.inl h)
        · rcases List.mem_cons.mp h with h | h
          · exact List.mem_cons.mpr (Or.inl (h.trans hp))
          · exact List.mem_cons.mpr (Or.inr h)
    · simp only [pyInsert, if_neg hp, keysOf_cons]
      rw [List.mem_cons, List.mem_cons, ih]
      tauto

theorem self_mem_keysOf_pyInsert (d : List (String × α)) (k : String) (v : α) :
    k ∈ keysOf (pyInsert d k v) := mem_keysOf_pyInsert.mpr (Or.inl rfl)

theorem mem_keysOf_pyInsert_of_mem {d : List (String × α)} {x : String}
    (k : String) (v : α) (h : x ∈ keysOf d) : x ∈ keysOf (pyInsert d k v) :=
  mem_keysOf_pyInsert.mpr (Or.inr h)

theorem keysOf_nodup_pyInsert {d : List (String × α)} {k : String} {v : α}
    (h : (keysOf d).Nodup) : (keysOf (pyInsert d k v)).Nodup := by
  induction d with
  | nil => simp [pyInsert, keysOf]
  | cons p ps ih =>
    rw [keysOf_cons, List.nodup_cons] at h
    by_cases hp : p.1 = k
    · simp only [pyInsert, if_pos hp, keysOf_cons, List.nodup_cons]
      exact ⟨hp ▸ h.1, h.2⟩
    · simp only [pyInsert, if_neg hp, keysOf_cons, List.nodup_cons]
      refine ⟨fun hx => ?_, ih h.2⟩
      rcases mem_keysOf_pyInsert.mp hx with h1 | h2
      · exact hp h1
      · exact h.1 h2

theorem mem_pyInsert_cases {d : List (String × α)} {q : String × α} {k : String} {v : α}
    (h : q ∈ pyInsert d k v) : q ∈ d ∨ q = (k, v) := by
  induction d with
  | nil =>
    simp only [pyInsert] at h
    exact Or.inr (List.mem_singleton.mp h)
  | cons p ps ih =>
    by_cases hp : p.1 = k
    · simp only [pyInsert, if_pos hp] at h
      rcases List.mem_cons.mp h with h | h
      · exact Or.inr h
      · exact Or.inl (List.mem_cons_of_mem _ h)
    · simp only [pyInsert, if_neg hp] at h
      rcases List.mem_cons.mp h with h | h
      · exact Or.inl (List.mem_cons.mpr (Or.inl h))
      · rcases ih h with h1 | h2
        · exact Or.inl (List.mem_cons_of_mem _ h1)
        · exact Or.inr h2

theorem pyExtend_nil (d : List (String × α)) : pyExtend d [] = d := rfl

theorem pyExtend_cons (d : List (String × α)) (p : String × α) (e : List (String × α)) :
    pyExtend d (p :: e) = pyExtend (pyInsert d p.1 p.2) e := rfl

theorem pyExtend_append (d a b : List (String × α)) :
    pyExtend d (a ++ b) = pyExtend (pyExtend d a) b := by
  simp [pyExtend, List.foldl_append]

theorem pyExtend_lookup_notmem : ∀ {e : List (String × α)} (d : List (String × α))
    {k : String}, k ∉ keysOf e → pyLookup (pyExtend d e) k = pyLookup d k := by
  intro e
  induction e with
  | nil => intro d k _; rfl
  | cons p ps ih =>
    intro d k h
    rw [keysOf_cons] at h
    rw [pyExtend_cons, ih _ (fun he => h (List.mem_cons.mpr (Or.inr he))),
      pyInsert_lookup_ne _ _ _ _ (fun he => h (List.mem_cons.mpr (Or.inl he)))]

theorem pyExtend_lookup_mem : ∀ {e : List (String × α)} (d : List (String × α))
    {k : String} {v : α}, (keysOf e).Nodup → (k, v) ∈ e →
    pyLookup (pyExtend d e) k = some v := by
  intro e
  induction e with
  | nil => intro d k v _ h; simp at h
  | cons p ps ih =>
    intro d k v hn h
    rw [keysOf_cons, List.nodup_cons] at hn
    rcases List.mem_cons.mp h with h1 | h2
    · have hk : p.1 = k := by rw [← h1]
      have hv : p.2 = v := by rw [← h1]
      rw [pyExtend_cons, pyExtend_lookup_notmem _ (hk ▸ hn.1), ← hk, ← hv]
      exact pyInsert_lookup_self d p.1 p.2
    · rw [pyExtend_cons]
      exact ih _ hn.2 h2

theorem pyLookup_catalog_map {cat : List String} {k : String} (f : String → β)
    (hk : k ∈ cat) : pyLookup (cat.map (fun k0 => (k0, f k0))) k = some (f k) := by
  induction cat with
  | nil => simp at hk
  | cons c cs ih =>
    rw [List.map_cons, pyLookup_cons]
    rcases List.mem_cons.mp hk with h | h
    · simp [h]
    · by_cases hc : c = k
      · simp [hc]
      · simpa [hc] using ih h

theorem keysOf_catalog_map (cat : List String) (f : String → β) :
    keysOf (cat.map (fun k0 => (k0, f k0))) = cat := by
  induction cat with
  | nil => rfl
  | cons c cs ih =>
    rw [List.map_cons, keysOf_cons, ih]

/-! ## Inventory assembly lemmas -/

/-- The referential invariant: every node name stored under a partition's
`Nodes` key is a key of the nodes dict. -/
def PInv (parts : List (String × List (String × PVal))) (ks : List String) : Prop :=
  ∀ q ∈ parts, ∀ ns, pyLookup q.2 "Nodes" = some (.l ns) → ∀ x ∈ ns, x ∈ ks

theorem stampDefault_lookup_nodes (dp : Option String) (pname : String)
    (pp : List (String × PVal)) (v : PVal) :
    pyLookup (stampDefault dp pname (pyInsert pp "Nodes" v)) "Nodes" = some v := by
  by_cases hd : dp = some pname
  · rw [stampDefault, if_pos hd,
      pyInsert_lookup_ne _ _ _ _ (by decide : "Nodes" ≠ "Default")]
    exact pyInsert_lookup_self pp "Nodes" v
  · rw [stampDefault, if_neg hd]
    exact pyInsert_lookup_self pp "Nodes" v

theorem processUnits_ok_spec : ∀ (us : List (Option NodeMsg)) (pn : List String)
    (nodes : List (String × List (String × String))) (nn : List String)
    {pn2 : List String} {nodes2 : List (String × List (String × String))}
    {nn2 : List String},
    processUnits us pn nodes nn = .ok (pn2, nodes2, nn2) →
    (∀ x ∈ keysOf nodes, x ∈ keysOf nodes2) ∧
    (∀ x ∈ pn2, x ∈ pn ∨ x ∈ keysOf nodes2) ∧
    (∀ x ∈ nn2, x ∈ nn ∨ x ∈ keysOf nodes2) := by
  intro us
  induction us with
  | nil =>
    intro pn nodes nn pn2 nodes2 nn2 h
    simp only [processUnits, Except.ok.injEq, Prod.mk.injEq] at h
    obtain ⟨h1, h2, h3⟩ := h
    subst h1; subst h2; subst h3
    exact ⟨fun x hx => hx, fun x hx => Or.inl hx, fun x hx => Or.inl hx⟩
  | cons u us ih =>
    intro pn nodes nn pn2 nodes2 nn2 h
    cases u with
    | none =>
      simp only [processUnits] at h
      exact ih _ _ _ h
    | some msg =>
      rcases hnp : msg.node_parameters with _ | nc
      · simp only [processUnits, hnp] at h
        exact ih _ _ _ h
      · rcases hln : pyLookup nc "NodeName" with _ | nodeName
        · simp only [processUnits, hnp, hln] at h
          exact Except.noConfusion h
        · simp only [processUnits, hnp, hln] at h
          obtain ⟨m1, m2, m3⟩ := ih _ _ _ h
          refine ⟨fun x hx => m1 x (mem_keysOf_pyInsert_of_mem _ _ hx), ?_, ?_⟩
          · intro x hx
            rcases m2 x hx with h1 | h2
            · rcases List.mem_append.mp h1 with ha | hb
              · exact Or.inl ha
              · have hxv : x = nodeName := List.mem_singleton.mp hb
                exact Or.inr (hxv ▸ m1 nodeName (self_mem_keysOf_pyInsert _ _ _))
            · exact Or.inr h2
          · intro x hx
            rcases m3 x hx with h1 | h2
            · by_cases hnew : msg.new_node = true
              · rw [if_pos hnew] at h1
                rcases List.mem_append.mp h1 with ha | hb
                · exact Or.inl ha
                · have hxv : x = nodeName := List.mem_singleton.mp hb
                  exact Or.inr (hxv ▸ m1 nodeName (self_mem_keysOf_pyInsert _ _ _))
              · rw [if_neg hnew] at h1
                exact Or.inl h1
            · exact Or.inr h2

theorem processItems_ok_spec (dp : Option String) :
    ∀ (items : List (String × List (String × PVal))) (units : List (Option NodeMsg))
    (parts : List (String × List (String × PVal)))
    (nodes : List (String × List (String × String))) (nn : List String)
    {p2 : List (String × List (String × PVal))}
    {n2 : List (String × List (String × String))} {nn2 : List String},
    processItems dp items units parts nodes nn = .ok (p2, n2, nn2) →
    (∀ x ∈ keysOf nodes, x ∈ keysOf n2) ∧
    (PInv parts (keysOf nodes) → PInv p2 (keysOf n2)) ∧
    (∀ x ∈ nn2, x ∈ nn ∨ x ∈ keysOf n2) := by
  intro items
  induction items with
  | nil =>
    intro units parts nodes nn p2 n2 nn2 h
    simp only [processItems, Except.ok.injEq, Prod.mk.injEq] at h
    obtain ⟨h1, h2, h3⟩ := h
    subst h1; subst h2; subst h3
    exact ⟨fun x hx => hx, fun hi => hi, fun x hx => Or.inl hx⟩
  | cons it items ih =>
    intro units parts nodes nn p2 n2 nn2 h
    obtain ⟨pname, pparams⟩ := it
    rcases hpu : processUnits units [] nodes nn with e | ⟨pnodes, nodesMid, nnMid⟩
    · simp only [processItems, hpu] at h
      exact Except.noConfusion h
    · simp only [processItems, hpu] at h
      obtain ⟨i1, i2, i3⟩ := ih units _ nodesMid nnMid h
      obtain ⟨u1, u2, u3⟩ := processUnits_ok_spec units [] nodes nn hpu
      refine ⟨fun x hx => i1 x (u1 x hx), ?_, ?_⟩
      · intro hinv
        apply i2
        intro q hq ns hns x hx
        rcases mem_pyInsert_cases hq with hq1 | hq2
        · exact u1 x (hinv q hq1 ns hns x hx)
        · subst hq2
          rw [stampDefault_lookup_nodes] at hns
          have hnseq : ns = pySetList pnodes := (PVal.l.inj (Option.some.inj hns)).symm
          rw [hnseq] at hx
          simp only [pySetList] at hx
          have hxp : x ∈ pnodes := List.mem_dedup.mp hx
          rcases u2 x hxp with ha | hb
          · exact absurd ha (List.not_mem_nil x)
          · exact hb
      · intro x hx
        rcases i3 x hx with h1 | h2
        · rcases u3 x h1 with ha | hb
          · exact Or.inl ha
          · exact Or.inr (i1 x hb)
        · exact Or.inr h2

theorem processRels_ok_spec (dp : Option String) :
    ∀ (rels : List RelationMsg) (parts : List (String × List (String × PVal)))
    (nodes : List (String × List (String × String))) (nn : List String)
    {p2 : List (String × List (String × PVal))}
    {n2 : List (String × List (String × String))} {nn2 : List String},
    processRels dp rels parts nodes nn = .ok (p2, n2, nn2) →
    (∀ x ∈ keysOf nodes, x ∈ keysOf n2) ∧
    (PInv parts (keysOf nodes) → PInv p2 (keysOf n2)) ∧
    (∀ x ∈ nn2, x ∈ nn ∨ x ∈ keysOf n2) := by
  intro rels
  induction rels with
  | nil =>
    intro parts nodes nn p2 n2 nn2 h
    simp only [processRels, Except.ok.injEq, Prod.mk.injEq] at h
    obtain ⟨h1, h2, h3⟩ := h
    subst h1; subst h2; subst h3
    exact ⟨fun x hx => hx, fun hi => hi, fun x hx => Or.inl hx⟩
  | cons rel rels ih =>
    intro parts nodes nn p2 n2 nn2 h
    by_cases he : rel.partition.isEmpty
    · simp only [processRels, he, if_true] at h
      exact ih _ _ _ h
    · simp only [processRels, he, if_false, Bool.false_eq_true] at h
      rcases hpi : processItems dp rel.partition rel.units parts nodes nn with
        e | ⟨pMid, nMid, nnMid⟩
      · rw [hpi] at h
        exact Except.noConfusion h
      · rw [hpi] at h
        obtain ⟨j1, j2, j3⟩ := ih _ _ _ h
        obtain ⟨k1, k2, k3⟩ := processItems_ok_spec dp rel.partition rel.units parts nodes nn hpi
        refine ⟨fun x hx => j1 x (k1 x hx), fun hi => j2 (k2 hi), ?_⟩
        intro x hx
        rcases j3 x hx with h1 | h2
        · rcases k3 x h1 with ha | hb
          · exact Or.inl ha
          · exact Or.inr (j1 x hb)
        · exact Or.inr h2

/-! ## Well-formed relation data

Spec-level descriptions of the node names a relation snapshot contributes,
and the well-formedness assumptions under which the inventory assembly cannot
fault: every relation has published its partition data, and every published
`node_parameters` mapping holds a `NodeName`. -/

/-- A unit's node blob cannot raise a `KeyError`: if it carries a
`node_parameters` mapping, that mapping binds `NodeName`. -/
def unitOk : Option NodeMsg → Bool
  | none => true
  | some m =>
    match m.node_parameters with
    | none => true
    | some nc => (pyLookup nc "NodeName").isSome

/-- Every relation has partition data and only well-formed unit blobs. -/
def relsOk (rels : List RelationMsg) : Bool :=
  rels.all (fun r => !r.partition.isEmpty && r.units.all unitOk)

/-- The node names contributed by a unit list: one per unit carrying a
non-empty `node_parameters` mapping with a `NodeName`. -/
def unitNames (us : List (Option NodeMsg)) : List String :=
  us.filterMap (fun u => u.bind (fun m =>
    m.node_parameters.bind (fun nc => pyLookup nc "NodeName")))

/-- The node names a unit list flags as new. -/
def unitNewNames (us : List (Option NodeMsg)) : List String :=
  us.filterMap (fun u => u.bind (fun m =>
    if m.new_node then m.node_parameters.bind (fun nc => pyLookup nc "NodeName")
    else none))

/-- All new-flagged node names across a relation snapshot. -/
def newFlaggedNames (rels : List RelationMsg) : List String :=
  (rels.map (fun r => unitNewNames r.units)).flatten

theorem processUnits_wf_spec : ∀ (us : List (Option NodeMsg)),
    us.all unitOk = true →
    ∀ (pn : List String) (nodes : List (String × List (String × String)))
    (nn : List String),
    ∃ nodes2,
      processUnits us pn nodes nn = .ok (pn ++ unitNames us, nodes2, nn ++ unitNewNames us) ∧
      (∀ x ∈ keysOf nodes, x ∈ keysOf nodes2) ∧
      (∀ x ∈ unitNames us, x ∈ keysOf nodes2) := by
  intro us
  induction us with
  | nil =>
    intro _ pn nodes nn
    exact ⟨nodes, by simp [processUnits, unitNames, unitNewNames],
      fun x hx => hx, fun x hx => absurd hx (List.not_mem_nil x)⟩
  | cons u us ih =>
    intro hok pn nodes nn
    rw [List.all_cons, Bool.and_eq_true] at hok
    obtain ⟨hu, hus⟩ := hok
    cases u with
    | none =>
      obtain ⟨nodes2, he, hm, hn⟩ := ih hus pn nodes nn
      refine ⟨nodes2, ?_, hm, ?_⟩
      · simpa [processUnits, unitNames, unitNewNames] using he
      · simpa [unitNames] using hn
    | some msg =>
      rcases hnp : msg.node_parameters with _ | nc
      · obtain ⟨nodes2, he, hm, hn⟩ := ih hus pn nodes nn
        refine ⟨nodes2, ?_, hm, ?_⟩
        · simpa [processUnits, hnp, unitNames, unitNewNames] using he
        · simpa [unitNames, hnp] using hn
      · have hok2 : (pyLookup nc "NodeName").isSome := by simpa [unitOk, hnp] using hu
        rcases hln : pyLookup nc "NodeName" with _ | nodeName
        · rw [hln] at hok2
          simp at hok2
        · obtain ⟨nodes2, he, hm, hn⟩ := ih hus (pn ++ [nodeName])
            (pyInsert nodes nodeName (nc.filter (fun p => p.1 ≠ "NodeName")))
            (if msg.new_node then nn ++ [nodeName] else nn)
          refine ⟨nodes2, ?_, ?_, ?_⟩
          · by_cases hnew : msg.new_node = true
            · simpa [processUnits, hnp, hln, hnew, unitNames, unitNewNames,
                List.filterMap_cons, List.append_assoc] using he
            · simpa [processUnits, hnp, hln, hnew, unitNames, unitNewNames,
                List.filterMap_cons, List.append_assoc] using he
          · intro x hx
            exact hm x (mem_keysOf_pyInsert_of_mem _ _ hx)
          · intro x hx
            have hx2 : x ∈ nodeName :: unitNames us := by
              simpa [unitNames, hnp, hln, List.filterMap_cons] using hx
            rcases List.mem_cons.mp hx2 with h1 | h2
            · exact h1 ▸ hm nodeName (self_mem_keysOf_pyInsert _ _ _)
            · exact hn x h2

theorem processItems_wf_spec (dp : Option String) :
    ∀ (items : List (String × List (String × PVal))) (units : List (Option NodeMsg)),
    units.all unitOk = true →
    ∀ (parts : List (String × List (String × PVal)))
    (nodes : List (String × List (String × String))) (nn : List String),
    ∃ p2 n2 L,
      processItems dp items units parts nodes nn = .ok (p2, n2, nn ++ L) ∧
      (∀ x ∈ keysOf nodes, x ∈ keysOf n2) ∧
      (∀ x, x ∈ L ↔ (items ≠ [] ∧ x ∈ unitNewNames units)) ∧
      (items ≠ [] → ∀ x ∈ unitNames units, x ∈ keysOf n2) := by
  intro items
  induction items with
  | nil =>
    intro units _ parts nodes nn
    exact ⟨parts, nodes, [], by simp [processItems], fun x hx => hx, by simp, by simp⟩
  | cons it items ih =>
    intro units hok parts nodes nn
    obtain ⟨pname, pparams⟩ := it
    obtain ⟨nodesMid, he, hm, hn⟩ := processUnits_wf_spec units hok [] nodes nn
    obtain ⟨p2, n2, L2, he2, hm2, hiff2, hnames2⟩ := ih units hok
      (pyInsert parts pname
        (stampDefault dp pname (pyInsert pparams "Nodes" (.l (pySetList (unitNames units))))))
      nodesMid (nn ++ unitNewNames units)
    refine ⟨p2, n2, unitNewNames units ++ L2, ?_, fun x hx => hm2 x (hm x hx), ?_, ?_⟩
    · simp only [processItems, he, List.nil_append]
      rw [he2, List.append_assoc]
    · intro x
      constructor
      · intro hx
        rcases List.mem_append.mp hx with h1 | h2
        · exact ⟨by simp, h1⟩
        · exact ⟨by simp, ((hiff2 x).mp h2).2⟩
      · rintro ⟨-, hx⟩
        exact List.mem_append.mpr (Or.inl hx)
    · intro _ x hx
      exact hm2 x (hn x hx)

theorem processRels_wf_spec (dp : Option String) :
    ∀ (rels : List RelationMsg), relsOk rels = true →
    ∀ (parts : List (String × List (String × PVal)))
    (nodes : List (String × List (String × String))) (nn : List String),
    ∃ p2 n2 L,
      processRels dp rels parts nodes nn = .ok (p2, n2, nn ++ L) ∧
      (∀ x ∈ keysOf nodes, x ∈ keysOf n2) ∧
      (∀ x, x ∈ L ↔ x ∈ newFlaggedNames rels) ∧
      (∀ r ∈ rels, ∀ x ∈ unitNames r.units, x ∈ keysOf n2) := by
  intro rels
  induction rels with
  | nil =>
    intro _ parts nodes nn
    exact ⟨parts, nodes, [], by simp [processRels], fun x hx => hx,
      by simp [newFlaggedNames], by simp⟩
  | cons rel rels ih =>
    intro hok parts nodes nn
    rw [relsOk, List.all_cons, Bool.and_eq_true] at hok
    obtain ⟨hrel, hrest⟩ := hok
    rw [Bool.and_eq_true, Bool.not_eq_true'] at hrel
    obtain ⟨hne, hu⟩ := hrel
    have hne2 : rel.partition ≠ [] := by
      intro hh
      rw [hh] at hne
      simp at hne
    obtain ⟨pMid, nMid, L1, he1, hmono1, hiff1, hnames1⟩ :=
      processItems_wf_spec dp rel.partition rel.units hu parts nodes nn
    obtain ⟨p2, n2, L2, he2, hmono2, hiff2, hnames2⟩ :=
      ih hrest pMid nMid (nn ++ L1)
    refine ⟨p2, n2, L1 ++ L2, ?_, fun x hx => hmono2 x (hmono1 x hx), ?_, ?_⟩
    · simp only [processRels, hne, Bool.false_eq_true, if_false, he1]
      rw [he2, List.append_assoc]
    · intro x
      have hflat : newFlaggedNames (rel :: rels) = unitNewNames rel.units ++ newFlaggedNames rels := by
        simp [newFlaggedNames]
      rw [hflat, List.mem_append, List.mem_append]
      constructor
      · rintro (h1 | h2)
        · exact Or.inl ((hiff1 x).mp h1).2
        · exact Or.inr ((hiff2 x).mp h2)
      · rintro (h1 | h2)
        · exact Or.inl ((hiff1 x).mpr ⟨hne2, h1⟩)
        · exact Or.inr ((hiff2 x).mpr h2)
    · intro r hr x hx
      rcases List.mem_cons.mp hr with h1 | h2
      · exact hmono2 x (hnames1 hne2 x (h1 ▸ hx))
      · exact hnames2 r h2 x hx

/-! ## Claim C7 and C10 theorems -/

/-- C7: over well-formed relation data, the assembly yields exactly one
`DownNodes` grouping whose membership equals the deduplicated set of the
new-flagged node names, with `State = DOWN` and `Reason = "New node."`; a name
not flagged new is in no grouping (immediate from the membership equivalence),
every contributed node name is a key of the nodes mapping, and when no
fragment is flagged new the `down_nodes` list is empty. -/
theorem new_node_down_grouping (dp : Option String) (rels : List RelationMsg)
    (h : relsOk rels = true) :
    ∃ g, get_new_nodes_and_nodes_and_partitions dp rels = .ok g ∧
      (newFlaggedNames rels = [] → g.down_nodes = []) ∧
      (newFlaggedNames rels ≠ [] → ∃ grp, g.down_nodes = [grp] ∧
        grp.State = "DOWN" ∧ grp.Reason = "New node." ∧ grp.DownNodes.Nodup ∧
        (∀ x, x ∈ grp.DownNodes ↔ x ∈ newFlaggedNames rels)) ∧
      (∀ r ∈ rels, ∀ x ∈ unitNames r.units, x ∈ keysOf g.nodes) := by
  obtain ⟨p2, n2, L, he, hmono, hiff, hnames⟩ := processRels_wf_spec dp rels h [] [] []
  rw [List.nil_append] at he
  refine ⟨⟨if L.isEmpty then []
      else [⟨"DOWN", "New node.", pySetList L⟩], n2, p2⟩, ?_, ?_, ?_, ?_⟩
  · simp only [get_new_nodes_and_nodes_and_partitions, he]
  · intro hnf
    have hL : L = [] := by
      rw [List.eq_nil_iff_forall_not_mem]
      intro x hx
      exact (List.not_mem_nil x) (hnf ▸ (hiff x).mp hx)
    simp [hL]
  · intro hnf
    have hLne : L ≠ [] := by
      intro hh
      apply hnf
      rw [List.eq_nil_iff_forall_not_mem]
      intro x hx
      exact (List.not_mem_nil x) (hh ▸ (hiff x).mpr hx)
    have hLe : L.isEmpty = false := by
      rcases L with _ | ⟨a, L0⟩
      · exact absurd rfl hLne
      · rfl
    refine ⟨⟨"DOWN", "New node.", pySetList L⟩, by simp [hLe], rfl, rfl,
      List.nodup_dedup L, ?_⟩
    intro x
    exact Iff.trans List.mem_dedup (hiff x)
  · intro r hr x hx
    exact hnames r hr x hx

/-- C7 witness input: the spec's example — two peers flag `node-a` and
`node-b` as new, `node-c` is not new. -/
def c7rels : List RelationMsg := [⟨[("part1", [])],
  [some ⟨true, some [("NodeName", "node-a")]⟩,
   some ⟨true, some [("NodeName", "node-b")]⟩,
   some ⟨false, some [("NodeName", "node-c")]⟩]⟩]

theorem new_node_down_grouping_witness :
    relsOk c7rels = true ∧
    ∃ g, get_new_nodes_and_nodes_and_partitions none c7rels = .ok g ∧
      (newFlaggedNames c7rels = [] → g.down_nodes = []) ∧
      (newFlaggedNames c7rels ≠ [] → ∃ grp, g.down_nodes = [grp] ∧
        grp.State = "DOWN" ∧ grp.Reason = "New node." ∧ grp.DownNodes.Nodup ∧
        (∀ x, x ∈ grp.DownNodes ↔ x ∈ newFlaggedNames c7rels)) ∧
      (∀ r ∈ c7rels, ∀ x ∈ unitNames r.units, x ∈ keysOf g.nodes) :=
  ⟨rfl, new_node_down_grouping none c7rels rfl⟩

/-- C10: on every successful inventory assembly, each node name stored in a
partition's `Nodes` list and each name in a `DownNodes` grouping is a key of
the document's nodes mapping. -/
theorem referential_integrity_of_discovery
    (dp : Option String) (rels : List RelationMsg) (g : GNP)
    (h : get_new_nodes_and_nodes_and_partitions dp rels = .ok g) :
    (∀ q ∈ g.partitions, ∀ ns, pyLookup q.2 "Nodes" = some (.l ns) →
      ∀ x ∈ ns, x ∈ keysOf g.nodes) ∧
    (∀ grp ∈ g.down_nodes, ∀ x ∈ grp.DownNodes, x ∈ keysOf g.nodes) := by
  rcases hpr : processRels dp rels [] [] [] with e | ⟨parts, nodes, nn⟩
  · simp only [get_new_nodes_and_nodes_and_partitions, hpr] at h
    exact Except.noConfusion h
  · simp only [get_new_nodes_and_nodes_and_partitions, hpr, Except.ok.injEq] at h
    obtain ⟨o1, o2, o3⟩ := processRels_ok_spec dp rels [] [] [] hpr
    subst h
    constructor
    · intro q hq ns hns x hx
      exact o2 (fun q0 hq0 => absurd hq0 (List.not_mem_nil q0)) q hq ns hns x hx
    · intro grp hgrp x hx
      by_cases hnn : nn.isEmpty
      · rw [if_pos hnn] at hgrp
        exact absurd hgrp (List.not_mem_nil grp)
      · rw [if_neg hnn] at hgrp
        have hgr : grp = ⟨"DOWN", "New node.", pySetList nn⟩ := List.mem_singleton.mp hgrp
        subst hgr
        have hxn : x ∈ nn := List.mem_dedup.mp hx
        rcases o3 x hxn with h1 | h2
        · exact absurd h1 (List.not_mem_nil x)
        · exact h2

/-- C10 witness input: one relation contributing one partition and one node. -/
def c10rels : List RelationMsg := [⟨[("p", [])], [some ⟨true, some [("NodeName", "n1")]⟩]⟩]

/-- The document the C10 witness input assembles to. -/
def c10g : GNP :=
  ⟨[⟨"DOWN", "New node.", ["n1"]⟩], [("n1", [])], [("p", [("Nodes", .l ["n1"])])]⟩

theorem referential_integrity_witness :
    (get_new_nodes_and_nodes_and_partitions none c10rels = .ok c10g) ∧
    ((∀ q ∈ c10g.partitions, ∀ ns, pyLookup q.2 "Nodes" = some (.l ns) →
      ∀ x ∈ ns, x ∈ keysOf c10g.nodes) ∧
    (∀ grp ∈ c10g.down_nodes, ∀ x ∈ grp.DownNodes, x ∈ keysOf c10g.nodes)) :=
  ⟨rfl, referential_integrity_of_discovery none c10rels c10g rfl⟩

/-! ## User-supplied parameter parsing lemmas and claims C1, C2, C3 -/

theorem userParamsFromLines_bad_line :
    ∀ (ls : List String) (acc : List (String × String)),
    (∃ l ∈ ls, surviveLine l = true ∧ pySplit l '=' = [l]) →
    userParamsFromLines ls acc = .error .indexError := by
  intro ls
  induction ls with
  | nil =>
    intro acc h
    obtain ⟨l, hl, -⟩ := h
    exact absurd hl (List.not_mem_nil l)
  | cons l0 ls ih =>
    intro acc h
    obtain ⟨l, hl, hs, hb⟩ := h
    by_cases hs0 : surviveLine l0 = true
    · rcases hsp : pySplit l0 '=' with _ | ⟨k, rest⟩
      · simp only [userParamsFromLines, hs0, if_true, hsp]
      · rcases rest with _ | ⟨v, rest2⟩
        · simp only [userParamsFromLines, hs0, if_true, hsp]
        · simp only [userParamsFromLines, hs0, if_true, hsp]
          apply ih
          rcases List.mem_cons.mp hl with h1 | h2
          · subst h1
            rw [hsp] at hb
            simp at hb
          · exact ⟨l, h2, hs, hb⟩
    · simp only [userParamsFromLines, hs0, if_false, Bool.false_eq_true]
      apply ih
      rcases List.mem_cons.mp hl with h1 | h2
      · exact absurd (h1 ▸ hs) hs0
      · exact ⟨l, h2, hs, hb⟩

/-- C3: an override text with a surviving line holding no `=` makes the
user-parameter parse raise `IndexError`, no mapping is produced, and the whole
assembly call propagates the same fault, whatever the other inputs. -/
theorem malformed_override_line_faults (t l : String)
    (hmem : l ∈ pySplit t '\n') (hs : surviveLine l = true)
    (hb : pySplit l '=' = [l]) :
    get_user_supplied_parameters (some t) = .error .indexError ∧
    ∀ (clusterName ingressAddr hostname : String) (isContainer : Bool)
      (slurmdbdHost : String) (dp : Option String) (rels : List RelationMsg),
      assemble_slurm_conf clusterName ingressAddr hostname isContainer
        slurmdbdHost dp rels (some t) = .error .indexError := by
  have ht : t ≠ "" := by
    intro hh
    subst hh
    have hl0 : l = "" := by simpa [pySplit, splitOnChar, ofChars] using hmem
    rw [hl0] at hs
    simp [surviveLine, wsOnly, startsWithHash] at hs
  have hg : get_user_supplied_parameters (some t) = .error .indexError := by
    simp only [get_user_supplied_parameters, if_neg ht]
    exact userParamsFromLines_bad_line _ _ ⟨l, hmem, hs, hb⟩
  refine ⟨hg, ?_⟩
  intro clusterName ingressAddr hostname isContainer slurmdbdHost dp rels
  simp only [assemble_slurm_conf, hg]
  rfl

/-- C3 witness: the spec's `NotAKeyValue` example. -/
theorem malformed_override_line_faults_witness :
    (("NotAKeyValue" : String) ∈ pySplit "NotAKeyValue" '\n' ∧
      surviveLine "NotAKeyValue" = true ∧
      pySplit "NotAKeyValue" '=' = ["NotAKeyValue"]) ∧
    (get_user_supplied_parameters (some "NotAKeyValue") = .error .indexError ∧
    ∀ (clusterName ingressAddr hostname : String) (isContainer : Bool)
      (slurmdbdHost : String) (dp : Option String) (rels : List RelationMsg),
      assemble_slurm_conf clusterName ingressAddr hostname isContainer
        slurmdbdHost dp rels (some "NotAKeyValue") = .error .indexError) :=
  ⟨⟨by decide, rfl, rfl⟩,
    malformed_override_line_faults "NotAKeyValue" "NotAKeyValue" (by decide) rfl rfl⟩

/-- C2 counterexample: the line `A=b=c` parses to value `b`, not to the full
remainder `b=c` after the first `=` — `str.split("=")` splits on every `=`
and the code takes index `[1]`. -/
theorem split_first_equals_counterexample :
    get_user_supplied_parameters (some "A=b=c") = .ok [("A", "b")] ∧
    ("b" : String) ≠ "b=c" :=
  ⟨rfl, by decide⟩

/-- The key/value a surviving override line contributes: the text before the
first `=` and the text between the first and the second `=`. -/
def firstTwoSegments (l : String) : Option (String × String) :=
  match pySplit l '=' with
  | k :: v :: _ => some (k, v)
  | _ => none

theorem userParamsFromLines_foldl :
    ∀ (ls : List String) (acc : List (String × String)),
    (∀ l ∈ ls, surviveLine l = true → (firstTwoSegments l).isSome) →
    userParamsFromLines ls acc =
      .ok ((ls.filter surviveLine).foldl (fun a l =>
        match firstTwoSegments l with
        | some (k, v) => pyInsert a k v
        | none => a) acc) := by
  intro ls
  induction ls with
  | nil => intro acc _; rfl
  | cons l0 ls ih =>
    intro acc h
    by_cases hs0 : surviveLine l0 = true
    · have h0 : (firstTwoSegments l0).isSome := h l0 (List.mem_cons_self _ _) hs0
      rcases hsp : pySplit l0 '=' with _ | ⟨k, rest⟩
      · simp only [firstTwoSegments, hsp] at h0
        simp at h0
      · rcases rest with _ | ⟨v, rest2⟩
        · simp only [firstTwoSegments, hsp] at h0
          simp at h0
        · simp only [userParamsFromLines, hs0, if_true, hsp, List.filter_cons,
            List.foldl_cons]
          rw [ih _ (fun l hl hsl => h l (List.mem_cons_of_mem _ hl) hsl)]
          simp only [firstTwoSegments, hsp]
    · have hs0f : surviveLine l0 = false := Bool.eq_false_iff.mpr hs0
      simp only [userParamsFromLines, hs0f, if_false, Bool.false_eq_true, List.filter_cons]
      exact ih _ (fun l hl hsl => h l (List.mem_cons_of_mem _ hl) hsl)

/-- C2 amended: each surviving override line is split on every `=`; the
parsed mapping binds the text before the first `=` to the text between the
first and second `=` (anything after a second `=` is discarded), later lines
overriding earlier ones. -/
theorem user_override_split_semantics (t : String) (ht : t ≠ "")
    (h : ∀ l ∈ pySplit t '\n', surviveLine l = true → (firstTwoSegments l).isSome) :
    get_user_supplied_parameters (some t) =
      .ok (((pySplit t '\n').filter surviveLine).foldl (fun a l =>
        match firstTwoSegments l with
        | some (k, v) => pyInsert a k v
        | none => a) []) := by
  simp only [get_user_supplied_parameters, if_neg ht]
  exact userParamsFromLines_foldl _ [] h

/-- C2 witness: the single line `A=b=c` yields the binding `("A", "b")`. -/
theorem user_override_split_semantics_witness :
    (("A=b=c" : String) ≠ "" ∧
      ∀ l ∈ pySplit "A=b=c" '\n', surviveLine l = true → (firstTwoSegments l).isSome) ∧
    get_user_supplied_parameters (some "A=b=c") =
      .ok (((pySplit "A=b=c" '\n').filter surviveLine).foldl (fun a l =>
        match firstTwoSegments l with
        | some (k, v) => pyInsert a k v
        | none => a) []) :=
  ⟨⟨by decide, by decide⟩, user_override_split_semantics "A=b=c" (by decide) (by decide)⟩

/-- C1: the `SlurmctldParameters` merge crashes whenever the user supplies a
value — the walrus operator binds the Boolean `get(...) != ""` and the guarded
branch calls `.split(",")` on it, an `AttributeError` — so the assembly at the
spec's own example input produces no document at all instead of the documented
set union. -/
theorem slurmctld_parameters_merge_crashes :
    assemble_slurmctld_parameters
      [("SlurmctldParameters", "enable_configless,other_flag")] =
      .error .attributeError ∧
    assemble_slurm_conf "charmedhpc" "10.0.0.1" "host1" false "" none []
      (some "SlurmctldParameters=enable_configless,other_flag") =
      .error .attributeError :=
  ⟨rfl, rfl⟩

/-! ## Claim C4: user-override precedence -/

theorem exceptBind_ok (a : α) (f : α → Except ε β) : (Except.ok a >>= f) = f a := rfl

theorem userParamsFromLines_keys_nodup :
    ∀ (ls : List String) (acc : List (String × String)) {r : List (String × String)},
    userParamsFromLines ls acc = .ok r → (keysOf acc).Nodup → (keysOf r).Nodup := by
  intro ls
  induction ls with
  | nil =>
    intro acc r h hn
    simp only [userParamsFromLines, Except.ok.injEq] at h
    exact h ▸ hn
  | cons l0 ls ih =>
    intro acc r h hn
    by_cases hs0 : surviveLine l0 = true
    · rcases hsp : pySplit l0 '=' with _ | ⟨k, rest⟩
      · simp only [userParamsFromLines, hs0, if_true, hsp] at h
        exact Except.noConfusion h
      · rcases rest with _ | ⟨v, rest2⟩
        · simp only [userParamsFromLines, hs0, if_true, hsp] at h
          exact Except.noConfusion h
        · simp only [userParamsFromLines, hs0, if_true, hsp] at h
          exact ih _ h (keysOf_nodup_pyInsert hn)
    · simp only [userParamsFromLines, hs0, if_false, Bool.false_eq_true] at h
      exact ih _ h hn

theorem get_user_supplied_parameters_keys_nodup {cfg : Option String}
    {U : List (String × String)} (h : get_user_supplied_parameters cfg = .ok U) :
    (keysOf U).Nodup := by
  cases cfg with
  | none =>
    simp only [get_user_supplied_parameters, Except.ok.injEq] at h
    simp [← h, keysOf]
  | some t =>
    by_cases ht : t = ""
    · simp only [get_user_supplied_parameters, ht, if_true, Except.ok.injEq] at h
      simp [← h, keysOf]
    · simp only [get_user_supplied_parameters, if_neg ht] at h
      exact userParamsFromLines_keys_nodup _ [] h (by simp [keysOf])

theorem userParamsFromLines_noise_invariant :
    ∀ (ls : List String) (acc : List (String × String)),
    userParamsFromLines ls acc = userParamsFromLines (ls.filter surviveLine) acc := by
  intro ls
  induction ls with
  | nil => intro acc; rfl
  | cons l0 ls ih =>
    intro acc
    by_cases hs0 : surviveLine l0 = true
    · rcases hsp : pySplit l0 '=' with _ | ⟨k, rest⟩
      · simp only [userParamsFromLines, hs0, if_true, hsp, List.filter_cons]
      · rcases rest with _ | ⟨v, rest2⟩
        · simp only [userParamsFromLines, hs0, if_true, hsp, List.filter_cons]
        · simp only [userParamsFromLines, hs0, if_true, hsp, List.filter_cons]
          exact ih _
    · have hs0f : surviveLine l0 = false := Bool.eq_false_iff.mpr hs0
      simp only [userParamsFromLines, hs0f, if_false, Bool.false_eq_true, List.filter_cons]
      exact ih _

theorem keysOf_map_str (U : List (String × String)) :
    keysOf (U.map (fun p => (p.1, PyVal.str p.2))) = keysOf U := by
  induction U with
  | nil => rfl
  | cons p ps ih => simp only [List.map_cons, keysOf_cons, ih]

/-- C4: a well-formed user override line `K=V` (for a `K` the lower-precedence
fragments also assign, and with no user-supplied `SlurmctldParameters`) wins:
the assembled document binds `K` to `V`, because the user-supplied mapping is
unpacked last into the dict literal. Blank lines and `#`-prefixed comment
lines are filtered out of the parse, so they raise nothing and bind nothing. -/
theorem user_override_precedence
    (clusterName ingressAddr hostname : String) (isContainer : Bool)
    (slurmdbdHost : String) (dp : Option String) (rels : List RelationMsg)
    (userCfg : Option String) (U : List (String × String)) (K V : String) (g : GNP)
    (hU : get_user_supplied_parameters userCfg = .ok U)
    (hg : get_new_nodes_and_nodes_and_partitions dp rels = .ok g)
    (hsp : (pyLookup U "SlurmctldParameters").getD "" = "")
    (hK : pyLookup U K = some V)
    (_hlow : pyLookup (assemble_base clusterName ingressAddr hostname isContainer
      slurmdbdHost "enable_configless" g) K ≠ none) :
    (∃ D, assemble_slurm_conf clusterName ingressAddr hostname isContainer
      slurmdbdHost dp rels userCfg = .ok D ∧ pyLookup D K = some (.str V)) ∧
    (∀ (ls : List String) (acc : List (String × String)),
      userParamsFromLines ls acc = userParamsFromLines (ls.filter surviveLine) acc) := by
  have hsp2 : assemble_slurmctld_parameters U = .ok "enable_configless" := by
    simp only [assemble_slurmctld_parameters, hsp]
    rfl
  refine ⟨⟨pyExtend (assemble_base clusterName ingressAddr hostname isContainer
      slurmdbdHost "enable_configless" g) (U.map (fun p => (p.1, PyVal.str p.2))), ?_, ?_⟩,
    userParamsFromLines_noise_invariant⟩
  · simp only [assemble_slurm_conf, hU, hg, exceptBind_ok, hsp2]
    rfl
  · apply pyExtend_lookup_mem
    · rw [keysOf_map_str]
      exact get_user_supplied_parameters_keys_nodup hU
    · exact List.mem_map_of_mem (fun p => (p.1, PyVal.str p.2)) (pyLookup_mem hK)

/-- C4 witness: default `ClusterName=charmedhpc`, override text
`ClusterName=mycluster\n# comment\n\nGresTypes=gpu`. -/
theorem user_override_precedence_witness :
    (get_user_supplied_parameters (some "ClusterName=mycluster\n# comment\n\nGresTypes=gpu") =
        .ok [("ClusterName", "mycluster"), ("GresTypes", "gpu")] ∧
      get_new_nodes_and_nodes_and_partitions none [] = .ok ⟨[], [], []⟩ ∧
      (pyLookup [("ClusterName", "mycluster"), ("GresTypes", "gpu")]
        "SlurmctldParameters").getD "" = "" ∧
      pyLookup [("ClusterName", "mycluster"), ("GresTypes", "gpu")] "ClusterName" =
        some "mycluster" ∧
      pyLookup (assemble_base "charmedhpc" "10.0.0.1" "host1" false ""
        "enable_configless" ⟨[], [], []⟩) "ClusterName" ≠ none) ∧
    ((∃ D, assemble_slurm_conf "charmedhpc" "10.0.0.1" "host1" false "" none []
        (some "ClusterName=mycluster\n# comment\n\nGresTypes=gpu") = .ok D ∧
      pyLookup D "ClusterName" = some (.str "mycluster")) ∧
    (∀ (ls : List String) (acc : List (String × String)),
      userParamsFromLines ls acc = userParamsFromLines (ls.filter surviveLine) acc)) :=
  ⟨⟨rfl, rfl, rfl, rfl, by decide⟩,
    user_override_precedence "charmedhpc" "10.0.0.1" "host1" false "" none []
      (some "ClusterName=mycluster\n# comment\n\nGresTypes=gpu")
      [("ClusterName", "mycluster"), ("GresTypes", "gpu")] "ClusterName" "mycluster"
      ⟨[], [], []⟩ rfl rfl rfl rfl (by decide)⟩

/-! ## Claims C5 and C9 -/

/-- C5 evaluation input: a document with one partition `osd` and no optional
partition attribute set. -/
def c5doc : List (String × PyVal) :=
  [("partitions", .parts [("osd", [])]), ("nodes", .nods []), ("down_nodes", .downs [])]

/-- C5: the mapping rendering of a partition emits its unset fields as the
string `"None"` — here `osd.MaxTime` and `osd.AllocNodes` — because the
`v is not None or k is not "PartitionName"` filter in
`Partition.as_snap_conf_entries` is satisfied by every field. -/
theorem partition_snap_entries_emit_none :
    ∃ m, slurm_conf_as_snap_conf c5doc = .ok m ∧
      pyLookup m "osd.MaxTime" = some "None" ∧
      pyLookup m "osd.AllocNodes" = some "None" :=
  ⟨_, rfl, rfl, rfl⟩

/-- C9: both renderers deep-copy their input before popping, so the caller's
document — tracked as the second component of the `_run` embeddings — is
returned exactly as it was passed, with every key binding intact. -/
theorem renderers_do_not_mutate_input (d : List (String × PyVal)) :
    (slurm_conf_as_string_run d).2 = d ∧ (slurm_conf_as_snap_conf_run d).2 = d ∧
    ∀ k, pyLookup (slurm_conf_as_string_run d).2 k = pyLookup d k ∧
      pyLookup (slurm_conf_as_snap_conf_run d).2 k = pyLookup d k :=
  ⟨rfl, rfl, fun _ => ⟨rfl, rfl⟩⟩

/-! ## Claim C6: the partition line -/

theorem partitionOf_fields {name : String} {params : List (String × PVal)}
    {fields : List (String × Option PVal)} (h : partitionOf name params = .ok fields) :
    fields = partitionCatalog.map (fun k => (k,
      if k = "PartitionName" then some (.s name)
      else if k = "Nodes" then some ((pyLookup params "Nodes").getD (.l []))
      else pyLookup params k)) := by
  cases hall : params.all (fun p => partitionCatalog.contains p.1 && p.1 ≠ "PartitionName") with
  | false =>
    simp only [partitionOf, hall, Bool.false_eq_true, if_false] at h
    exact Except.noConfusion h
  | true =>
    simp only [partitionOf, hall, if_true, Except.ok.injEq] at h
    exact h.symm

theorem partitionOf_lookup_pname {name : String} {params : List (String × PVal)}
    {fields : List (String × Option PVal)} (h : partitionOf name params = .ok fields) :
    pyLookup fields "PartitionName" = some (some (.s name)) := by
  rw [partitionOf_fields h,
    pyLookup_catalog_map _ (show "PartitionName" ∈ partitionCatalog by decide)]
  simp

theorem partitionOf_lookup_nodes {name : String} {params : List (String × PVal)}
    {fields : List (String × Option PVal)} (h : partitionOf name params = .ok fields) :
    pyLookup fields "Nodes" = some (some ((pyLookup params "Nodes").getD (.l []))) := by
  rw [partitionOf_fields h,
    pyLookup_catalog_map _ (show "Nodes" ∈ partitionCatalog by decide)]
  simp

/-- C6 counterexample input: a document whose partition stores its member
list in the non-sorted order the assembler's set materialization can yield. -/
def c6doc : List (String × PyVal) :=
  [("partitions", .parts [("part1", [("Nodes", .l ["node-b", "node-a"])])]),
   ("nodes", .nods []), ("down_nodes", .downs [])]

/-- C6 counterexample: the rendering joins the stored member list as is —
`node-b,node-a` — the lexicographically sorted comma-join of these two names
is `node-a,node-b`, so the flat file differs from the claim's sorted form. -/
theorem partition_nodes_not_sorted :
    slurm_conf_as_string c6doc =
      .ok "# Parameters\n\n\n# Partitions\nPartitionName=part1 Nodes=node-b,node-a \n\n# Nodes\n\n\n# DownNodes\n" ∧
    ("# Parameters\n\n\n# Partitions\nPartitionName=part1 Nodes=node-b,node-a \n\n# Nodes\n\n\n# DownNodes\n" : String) ≠
      "# Parameters\n\n\n# Partitions\nPartitionName=part1 Nodes=node-a,node-b \n\n# Nodes\n\n\n# DownNodes\n" :=
  ⟨rfl, by decide⟩

/-- C6 amended: the partition's flat-file line is
`PartitionName=<name> Nodes=<comma-join of the stored member list, or "" when
empty> <other set fields in catalog order>` — the member list is emitted in
its stored order (the assembler deduplicates it via a Python set, whose order
is unspecified; no sorting is applied). -/
theorem partition_entry_format (name : String) (params : List (String × PVal))
    (fields : List (String × Option PVal))
    (h : partitionOf name params = .ok fields) :
    (partition_as_slurm_conf_entry fields =
      "PartitionName=" ++ name ++ " " ++
      "Nodes=" ++ (if (pvalElems ((pyLookup params "Nodes").getD (.l []))).length > 0
        then joinWith "," (pvalElems ((pyLookup params "Nodes").getD (.l [])))
        else "\"\"") ++ " " ++
      joinWith " " ((fields.filter (fun p => p.1 ≠ "PartitionName" && p.1 ≠ "Nodes")).filterMap
        (fun p => p.2.map (fun v => p.1 ++ "=" ++ pyStrOfPVal v)))) ∧
    (∀ xs : List String, (pySetList xs).Nodup ∧ ∀ x, x ∈ pySetList xs ↔ x ∈ xs) := by
  constructor
  · simp only [partition_as_slurm_conf_entry, partitionOf_lookup_pname h,
      partitionOf_lookup_nodes h, Option.getD_some, pyStrOfOpt, pyStrOfPVal]
  · intro xs
    exact ⟨List.nodup_dedup xs, fun x => List.mem_dedup⟩

/-- C6 amended witness: partition `p` with `MaxTime=1` set and no nodes. -/
theorem partition_entry_format_witness :
    ∃ fields, partitionOf "p" [("MaxTime", PVal.s "1")] = .ok fields ∧
      partition_as_slurm_conf_entry fields = "PartitionName=p Nodes=\"\" MaxTime=1" := by
  refine ⟨_, rfl, ?_⟩
  rw [(partition_entry_format "p" [("MaxTime", PVal.s "1")] _ rfl).1]
  rfl

/-! ## Claim C8: the zero-partition synthetic default -/

theorem exceptPure_eq_ok (a : α) : (pure a : Except ε α) = .ok a := rfl

theorem exceptMap_ok (f : α → β) (a : α) :
    Except.map f (Except.ok a : Except ε α) = .ok (f a) := rfl

theorem exceptMap_err (f : α → β) (e : ε) :
    Except.map f (Except.error e : Except ε α) = .error e := rfl

theorem dedent_header_parameters : dedent "# Parameters" = "# Parameters" := by decide

theorem dedent_header_partitions : dedent "# Partitions" = "# Partitions" := by decide

theorem dedent_header_nodes : dedent "# Nodes" = "# Nodes" := by decide

theorem dedent_header_down_nodes : dedent "# DownNodes" = "# DownNodes" := by decide

theorem dedent_sep : dedent SLURM_CONF_SECTION_SEPARATOR = "" := by decide

theorem dedent_default_line :
    dedent "PartitionName=DEFAULT Default=YES" = "PartitionName=DEFAULT Default=YES" := by
  decide

theorem mapEntries_ok_mem {f : α → Except PyErr β} :
    ∀ {xs : List α} {rs : List β}, mapEntries f xs = .ok rs →
    ∀ r ∈ rs, ∃ x ∈ xs, f x = .ok r := by
  intro xs
  induction xs with
  | nil =>
    intro rs h r hr
    simp only [mapEntries, Except.ok.injEq] at h
    rw [← h] at hr
    exact absurd hr (List.not_mem_nil r)
  | cons x xs ih =>
    intro rs h r hr
    rcases hf : f x with e | r0
    · simp only [mapEntries, hf] at h
      exact Except.noConfusion h
    · rcases hm : mapEntries f xs with e | rs0
      · simp only [mapEntries, hf, hm] at h
        exact Except.noConfusion h
      · simp only [mapEntries, hf, hm, Except.ok.injEq] at h
        rw [← h] at hr
        rcases List.mem_cons.mp hr with h1 | h2
        · exact ⟨x, List.mem_cons_self x xs, h1 ▸ hf⟩
        · obtain ⟨x0, hx0, he0⟩ := ih hm r h2
          exact ⟨x0, List.mem_cons_of_mem x hx0, he0⟩

theorem fst_mem_of_mem_catalog_map {cat : List String} {g : String → β} {p : String × β}
    (h : p ∈ cat.map (fun k => (k, g k))) : p.1 ∈ cat := by
  rcases List.mem_map.mp h with ⟨k, hk, he⟩
  rw [← he]
  exact hk

theorem mem_filterMap_pairs_fst {fields : List (String × Option γ)} {q : String × γ}
    (h : q ∈ fields.filterMap (fun p => p.2.map (fun v => (p.1, v)))) :
    ∃ p ∈ fields, q.1 = p.1 := by
  rcases List.mem_filterMap.mp h with ⟨p, hp, he⟩
  rcases Option.map_eq_some'.mp he with ⟨v, hv, hq⟩
  exact ⟨p, hp, by rw [← hq]⟩

theorem nodeOf_fields {name : String} {params : List (String × String)}
    {fields : List (String × Option String)} (h : nodeOf name params = .ok fields) :
    fields = nodeCatalog.map (fun k => (k,
      if k = "NodeName" then some name else pyLookup params k)) := by
  cases hall : params.all (fun p => nodeCatalog.contains p.1 && p.1 ≠ "NodeName") with
  | false =>
    simp only [nodeOf, hall, Bool.false_eq_true, if_false] at h
    exact Except.noConfusion h
  | true =>
    simp only [nodeOf, hall, if_true, Except.ok.injEq] at h
    exact h.symm

theorem nodeOf_snap_keys {name : String} {params : List (String × String)}
    {fields : List (String × Option String)} (h : nodeOf name params = .ok fields)
    {q : String × String} (hq : q ∈ node_as_snap_conf_entries fields) :
    q.1 ∈ nodeCatalog := by
  obtain ⟨p, hp, he⟩ := mem_filterMap_pairs_fst hq
  rw [nodeOf_fields h] at hp
  exact he ▸ fst_mem_of_mem_catalog_map hp

theorem parametersOfDict_fields {conf : List (String × PyVal)}
    {fields : List (String × Option String)} (h : parametersOfDict conf = .ok fields) :
    fields = parametersCatalog.map (fun k => (k, strValOf (pyLookup conf k))) := by
  cases hall : conf.all (fun p => parametersCatalog.contains p.1 && isStrVal p.2) with
  | false =>
    simp only [parametersOfDict, hall, Bool.false_eq_true, if_false] at h
    exact Except.noConfusion h
  | true =>
    simp only [parametersOfDict, hall, if_true, Except.ok.injEq] at h
    exact h.symm

theorem params_snap_keys {conf : List (String × PyVal)}
    {fields : List (String × Option String)} (h : parametersOfDict conf = .ok fields)
    {q : String × String} (hq : q ∈ params_as_snap_conf_entries fields) :
    q.1 ∈ parametersCatalog := by
  obtain ⟨p, hp, he⟩ := mem_filterMap_pairs_fst hq
  rw [parametersOfDict_fields h] at hp
  exact he ▸ fst_mem_of_mem_catalog_map hp

theorem down_snap_keys {r : DownNodesRec} {q : String × String}
    (hq : q ∈ down_as_snap_conf_entries r) :
    q.1 = "State" ∨ q.1 = "Reason" ∨ q.1 = "DownNodes" := by
  simp only [down_as_snap_conf_entries, List.mem_cons, List.not_mem_nil, or_false] at hq
  rcases hq with hq | hq | hq
  · exact Or.inl (by rw [hq])
  · exact Or.inr (Or.inl (by rw [hq]))
  · exact Or.inr (Or.inr (by rw [hq]))

/-- C8: on a document with an empty partitions mapping (and otherwise
renderable content), the flat file's Partitions section is exactly the single
synthetic line `PartitionName=DEFAULT Default=YES`, and the mapping rendering
instead contains the entries `partition-name -> DEFAULT` and
`default -> YES`. -/
theorem zero_partitions_rendering
    (d d1 d2 rem : List (String × PyVal))
    (ns : List (String × List (String × String)))
    (ds : List DownNodesRec)
    (params : List (String × Option String))
    (nentries : List String)
    (nsnap : List (List (String × String)))
    (h1 : popParts d = .ok ([], d1))
    (h2 : popNodes d1 = .ok (ns, d2))
    (h3 : popDowns d2 = .ok (ds, rem))
    (h4 : parametersOfDict rem = .ok params)
    (h5 : mapEntries (fun p => (nodeOf p.1 p.2).map node_as_slurm_conf_entry) ns = .ok nentries)
    (h6 : mapEntries (fun p => (nodeOf p.1 p.2).map node_as_snap_conf_entries) ns = .ok nsnap) :
    slurm_conf_as_string d = .ok (joinWith "\n"
      ["# Parameters", dedent (as_slurm_conf_entries params), "",
       "# Partitions", "PartitionName=DEFAULT Default=YES", "",
       "# Nodes", dedent (joinWith "\n" nentries), "",
       "# DownNodes", dedent (joinWith "\n" (ds.map down_as_slurm_conf_entry))]) ∧
    ∃ m, slurm_conf_as_snap_conf d = .ok m ∧
      pyLookup m "partition-name" = some "DEFAULT" ∧
      pyLookup m "default" = some "YES" := by
  constructor
  · simp only [slurm_conf_as_string, slurm_conf_as_string_run, pyDeepcopy, renderBody,
      h1, h2, h3, h4, h5, exceptBind_ok, exceptPure_eq_ok, List.isEmpty_nil, if_true,
      dedent_all, List.map_cons, List.map_nil, dedent_header_parameters,
      dedent_header_partitions, dedent_header_nodes, dedent_header_down_nodes,
      dedent_sep, joinWith, dedent_default_line]
  · refine ⟨pyDictOfPairs (params_as_snap_conf_entries params ++
      [("partition-name", "DEFAULT"), ("default", "YES")] ++ nsnap.flatten ++
      (ds.map down_as_snap_conf_entries).flatten), ?_, ?_, ?_⟩
    · simp only [slurm_conf_as_snap_conf, slurm_conf_as_snap_conf_run, pyDeepcopy, snapBody,
        h1, h2, h3, h4, h6, exceptBind_ok, exceptPure_eq_ok, exceptMap_ok,
        List.isEmpty_nil, if_true, List.map_cons, List.map_nil]
    · have hnotmemB : ("partition-name" : String) ∉ keysOf nsnap.flatten := by
        intro hmem
        rcases List.mem_map.mp hmem with ⟨q, hq, hq1⟩
        rcases List.mem_flatten.mp hq with ⟨es, hes, hqe⟩
        obtain ⟨p, hp, hpe⟩ := mapEntries_ok_mem h6 es hes
        rcases hno : nodeOf p.1 p.2 with e | fs
        · rw [hno, exceptMap_err] at hpe
          exact Except.noConfusion hpe
        · rw [hno, exceptMap_ok] at hpe
          have hqs : q ∈ node_as_snap_conf_entries fs := by
            rw [Except.ok.injEq] at hpe
            exact hpe ▸ hqe
          have := nodeOf_snap_keys hno hqs
          rw [hq1] at this
          exact absurd this (by decide)
      have hnotmemC : ("partition-name" : String) ∉
          keysOf (ds.map down_as_snap_conf_entries).flatten := by
        intro hmem
        rcases List.mem_map.mp hmem with ⟨q, hq, hq1⟩
        rcases List.mem_flatten.mp hq with ⟨es, hes, hqe⟩
        rcases List.mem_map.mp hes with ⟨r, -, hre⟩
        have hks := down_snap_keys (hre ▸ hqe)
        rw [hq1] at hks
        rcases hks with hk | hk | hk <;> exact absurd hk (by decide)
      rw [pyDictOfPairs, pyExtend_append, pyExtend_append, pyExtend_append,
        pyExtend_lookup_notmem _ hnotmemC, pyExtend_lookup_notmem _ hnotmemB,
        pyExtend_cons, pyExtend_cons, pyExtend_nil,
        pyInsert_lookup_ne _ _ _ _ (by decide : ("partition-name" : String) ≠ "default")]
      exact pyInsert_lookup_self _ _ _
    · have hnotmemB : ("default" : String) ∉ keysOf nsnap.flatten := by
        intro hmem
        rcases List.mem_map.mp hmem with ⟨q, hq, hq1⟩
        rcases List.mem_flatten.mp hq with ⟨es, hes, hqe⟩
        obtain ⟨p, hp, hpe⟩ := mapEntries_ok_mem h6 es hes
        rcases hno : nodeOf p.1 p.2 with e | fs
        · rw [hno, exceptMap_err] at hpe
          exact Except.noConfusion hpe
        · rw [hno, exceptMap_ok] at hpe
          have hqs : q ∈ node_as_snap_conf_entries fs := by
            rw [Except.ok.injEq] at hpe
            exact hpe ▸ hqe
          have := nodeOf_snap_keys hno hqs
          rw [hq1] at this
          exact absurd this (by decide)
      have hnotmemC : ("default" : String) ∉
          keysOf (ds.map down_as_snap_conf_entries).flatten := by
        intro hmem
        rcases List.mem_map.mp hmem with ⟨q, hq, hq1⟩
        rcases List.mem_flatten.mp hq with ⟨es, hes, hqe⟩
        rcases List.mem_map.mp hes with ⟨r, -, hre⟩
        have hks := down_snap_keys (hre ▸ hqe)
        rw [hq1] at hks
        rcases hks with hk | hk | hk <;> exact absurd hk (by decide)
      rw [pyDictOfPairs, pyExtend_append, pyExtend_append, pyExtend_append,
        pyExtend_lookup_notmem _ hnotmemC, pyExtend_lookup_notmem _ hnotmemB,
        pyExtend_cons, pyExtend_cons, pyExtend_nil]
      exact pyInsert_lookup_self _ _ _

/-- C8 witness input: a document with no partitions, no nodes, no groupings
and no global parameters. -/
def c8doc : List (String × PyVal) :=
  [("partitions", .parts []), ("nodes", .nods []), ("down_nodes", .downs [])]

/-- The C8 witness document after popping `partitions`. -/
def c8d1 : List (String × PyVal) := [("nodes", .nods []), ("down_nodes", .downs [])]

/-- The C8 witness document after popping `nodes` as well. -/
def c8d2 : List (String × PyVal) := [("down_nodes", .downs [])]

/-- The `Parameters` record of the C8 witness document: every field unset. -/
def c8params : List (String × Option String) :=
  parametersCatalog.map (fun k => (k, none))

theorem zero_partitions_rendering_witness :
    (popParts c8doc = .ok ([], c8d1) ∧ popNodes c8d1 = .ok ([], c8d2) ∧
      popDowns c8d2 = .ok ([], []) ∧ parametersOfDict [] = .ok c8params ∧
      mapEntries (fun p => (nodeOf p.1 p.2).map node_as_slurm_conf_entry)
        ([] : List (String × List (String × String))) = .ok [] ∧
      mapEntries (fun p => (nodeOf p.1 p.2).map node_as_snap_conf_entries)
        ([] : List (String × List (String × String))) = .ok []) ∧
    (slurm_conf_as_string c8doc = .ok (joinWith "\n"
      ["# Parameters", dedent (as_slurm_conf_entries c8params), "",
       "# Partitions", "PartitionName=DEFAULT Default=YES", "",
       "# Nodes", dedent (joinWith "\n" []), "",
       "# DownNodes", dedent (joinWith "\n" (List.map down_as_slurm_conf_entry []))]) ∧
    ∃ m, slurm_conf_as_snap_conf c8doc = .ok m ∧
      pyLookup m "partition-name" = some "DEFAULT" ∧
      pyLookup m "default" = some "YES") :=
  ⟨⟨rfl, rfl, rfl, rfl, rfl, rfl⟩,
    zero_partitions_rendering c8doc c8d1 c8d2 [] [] [] c8params [] []
      rfl rfl rfl rfl rfl rfl⟩

end SlurmConf
